import Mathlib

/-!
# AMAT file-extraction subsystem: a verified shallow embedding

This file embeds the path-sanitization and multi-strategy extraction engine of
the AMAT Android acquisition tool (`amat_data_collection.py`, with a
near-identical copy in `main.py`) and proves properties of it.

Modelling conventions:

* Machine text is `String`/`List Char`; Python `len`, slicing and `split` act
  on code points, matching Lean `List Char` operations.
* `hashlib.md5(...).hexdigest()` is implemented in full (`MD5` namespace),
  operating on the UTF-8 encoding of the input string as `str.encode` does.
* File sizes are byte counts (`Nat`).  The source stores statistics in MB as
  Python floats obtained by `st_size / 1024 / 1024`; division by `2^20` is
  exact in binary floating point for any realistic size, so MB quantities are
  modelled as exact rationals (`bytesToMB`).
* The local filesystem is a finite association list from path to byte size;
  the device side is an oracle (`World`) giving the outcome of each `adb`
  subprocess invocation.  Every `adb` invocation is recorded in a trace so
  that "the command port receives zero calls" is a statement about the model.
* Python exceptions are `Except`: the body of `_extract_file_production`
  may stop with the session state at the fault point, and the top-level
  handler (the source's `try`/`except`) converts that to `False` plus an
  `extraction_errors` increment.  OS-level faults (a `stat` race at the
  resume check, a failing `unlink`) are injected through the `World`.
-/

namespace AMAT

/-! ## MD5 (hashlib.md5(...).hexdigest()) -/

namespace MD5

def mask32 : Nat := 4294967295

def rotl32 (x n : Nat) : Nat := ((x <<< n) ||| (x >>> (32 - n))) &&& mask32

/-- The 64 round constants `floor(abs(sin(i+1)) * 2^32)` of MD5. -/
def kTable : List Nat :=
  [0xd76aa478, 0xe8c7b756, 0x242070db, 0xc1bdceee,
   0xf57c0faf, 0x4787c62a, 0xa8304613, 0xfd469501,
   0x698098d8, 0x8b44f7af, 0xffff5bb1, 0x895cd7be,
   0x6b901122, 0xfd987193, 0xa679438e, 0x49b40821,
   0xf61e2562, 0xc040b340, 0x265e5a51, 0xe9b6c7aa,
   0xd62f105d, 0x02441453, 0xd8a1e681, 0xe7d3fbc8,
   0x21e1cde6, 0xc33707d6, 0xf4d50d87, 0x455a14ed,
   0xa9e3e905, 0xfcefa3f8, 0x676f02d9, 0x8d2a4c8a,
   0xfffa3942, 0x8771f681, 0x6d9d6122, 0xfde5380c,
   0xa4beea44, 0x4bdecfa9, 0xf6bb4b60, 0xbebfbc70,
   0x289b7ec6, 0xeaa127fa, 0xd4ef3085, 0x04881d05,
   0xd9d4d039, 0xe6db99e5, 0x1fa27cf8, 0xc4ac5665,
   0xf4292244, 0x432aff97, 0xab9423a7, 0xfc93a039,
   0x655b59c3, 0x8f0ccc92, 0xffeff47d, 0x85845dd1,
   0x6fa87e4f, 0xfe2ce6e0, 0xa3014314, 0x4e0811a1,
   0xf7537e82, 0xbd3af235, 0x2ad7d2bb, 0xeb86d391]

/-- The per-round left-rotation amounts of MD5. -/
def sTable : List Nat :=
  [7, 12, 17, 22, 7, 12, 17, 22, 7, 12, 17, 22, 7, 12, 17, 22,
   5, 9, 14, 20, 5, 9, 14, 20, 5, 9, 14, 20, 5, 9, 14, 20,
   4, 11, 16, 23, 4, 11, 16, 23, 4, 11, 16, 23, 4, 11, 16, 23,
   6, 10, 15, 21, 6, 10, 15, 21, 6, 10, 15, 21, 6, 10, 15, 21]

/-- Round function and message-word index for step `i`. -/
def mixFun (i b c d : Nat) : Nat × Nat :=
  if i < 16 then ((b &&& c) ||| ((b ^^^ mask32) &&& d), i)
  else if i < 32 then ((d &&& b) ||| ((d ^^^ mask32) &&& c), (5 * i + 1) % 16)
  else if i < 48 then (b ^^^ c ^^^ d, (3 * i + 5) % 16)
  else (c ^^^ (b ||| (d ^^^ mask32)), (7 * i) % 16)

def md5Step (msg : List Nat) (st : Nat × Nat × Nat × Nat) (i : Nat) : Nat × Nat × Nat × Nat :=
  let (a, b, c, d) := st
  let (f, g) := mixFun i b c d
  let tmp := (a + f + kTable.getD i 0 + msg.getD g 0) &&& mask32
  (d, (b + rotl32 tmp (sTable.getD i 0)) &&& mask32, b, c)

def processBlock (st : Nat × Nat × Nat × Nat) (msg : List Nat) : Nat × Nat × Nat × Nat :=
  let (a0, b0, c0, d0) := st
  let (a, b, c, d) := (List.range 64).foldl (md5Step msg) st
  ((a0 + a) &&& mask32, (b0 + b) &&& mask32, (c0 + c) &&& mask32, (d0 + d) &&& mask32)

/-- The `count` least-significant bytes of `n`, little-endian. -/
def leBytes (n count : Nat) : List Nat :=
  (List.range count).map (fun i => (n >>> (8 * i)) &&& 255)

/-- MD5 padding: `0x80`, zeros to 56 mod 64, then the 64-bit bit length. -/
def padMessage (msg : List Nat) : List Nat :=
  let len := msg.length
  let zeros := (56 + 64 - (len + 1) % 64) % 64
  msg ++ 0x80 :: List.replicate zeros 0 ++ leBytes ((len * 8) % (2 ^ 64)) 8

/-- A 64-byte block as 16 little-endian 32-bit words. -/
def toWords (block : List Nat) : List Nat :=
  (List.range 16).map (fun i =>
    block.getD (4 * i) 0 ||| (block.getD (4 * i + 1) 0 <<< 8) |||
    (block.getD (4 * i + 2) 0 <<< 16) ||| (block.getD (4 * i + 3) 0 <<< 24))

/-- The 16-byte MD5 digest of a byte sequence. -/
def md5Bytes (msg : List Nat) : List Nat :=
  let padded := padMessage msg
  let blocks := (List.range (padded.length / 64)).map
    (fun i => toWords ((padded.drop (64 * i)).take 64))
  let st := blocks.foldl processBlock (0x67452301, 0xefcdab89, 0x98badcfe, 0x10325476)
  leBytes st.1 4 ++ leBytes st.2.1 4 ++ leBytes st.2.2.1 4 ++ leBytes st.2.2.2 4

def hexAlphabet : List Char := "0123456789abcdef".data

def byteHex (b : Nat) : List Char :=
  [hexAlphabet.getD (b / 16 % 16) '0', hexAlphabet.getD (b % 16) '0']

/-- Lowercase hex rendering of the digest, as `hexdigest()` produces. -/
def md5HexBytes (msg : List Nat) : List Char := (md5Bytes msg).flatMap byteHex

/-- `str.encode()`: the UTF-8 bytes of a string. -/
def strBytes (s : String) : List Nat := s.toUTF8.toList.map (fun b => b.toNat)

/-- `hashlib.md5(s.encode()).hexdigest()` as a list of characters. -/
def md5Hexdigest (s : String) : List Char := md5HexBytes (strBytes s)

end MD5

/-! ## Python string primitives used by the engine -/

/-- Python `str.split('/')` on the character list: cuts at every `'/'`,
keeping empty pieces (so `"" ↦ [[]]`, `"a//b" ↦ [a, [], b]`). -/
def splitOnSlash : List Char → List (List Char)
  | [] => [[]]
  | c :: rest =>
    if c = '/' then [] :: splitOnSlash rest
    else
      match splitOnSlash rest with
      | [] => [[c]]
      | p :: ps => (c :: p) :: ps

/-- Python `'/'.join` on character lists. -/
def joinSlash : List (List Char) → List Char
  | [] => []
  | [p] => p
  | p :: q :: ps => p ++ '/' :: joinSlash (q :: ps)

/-- Python `str.startswith` on character lists. -/
def listStartsWith : List Char → List Char → Bool
  | _, [] => true
  | [], _ :: _ => false
  | c :: l, d :: p => c = d && listStartsWith l p

/-- Python `s.startswith(pre)`. -/
def pyStartswith (s pre : String) : Bool := listStartsWith s.data pre.data

/-- Python `s.endswith(suf)` for one suffix. -/
def pyEndswithOne (s suf : String) : Bool := listStartsWith s.data.reverse suf.data.reverse

/-- Python `s.endswith(tuple_of_suffixes)`. -/
def pyEndswithAny (s : String) (sufs : List String) : Bool := sufs.any (pyEndswithOne s)

/-- Python `os.path.basename`: the text after the last `'/'`. -/
def pyBasename (s : String) : String := ⟨(splitOnSlash s.data).getLastD []⟩

/-- Python `pathlib.Path(p).parent` for the slash-joined paths built here:
everything before the last `'/'`. -/
def pyDirname (s : String) : String :=
  ⟨joinSlash (splitOnSlash s.data).dropLast⟩

/-- Python `s.lstrip('/')`. -/
def pyLstripSlash (s : String) : String := ⟨s.data.dropWhile (· = '/')⟩

/-- Python `str.strip()`: drop whitespace from both ends. -/
def pyStrip (s : String) : String :=
  ⟨((s.data.dropWhile Char.isWhitespace).reverse.dropWhile Char.isWhitespace).reverse⟩

/-- Decimal digit run with Python's underscore grouping (an `'_'` must sit
between two digits).  `lastDigit` records whether the previous character was
a digit; the initial call uses `false`, so the run must be nonempty. -/
def pyDigits? : List Char → Nat → Bool → Option Nat
  | [], acc, lastDigit => if lastDigit then some acc else none
  | c :: rest, acc, lastDigit =>
    if c.isDigit then pyDigits? rest (acc * 10 + (c.toNat - 48)) true
    else if c = '_' && lastDigit then
      match rest with
      | d :: _ => if d.isDigit then pyDigits? rest acc false else none
      | [] => none
    else none

/-- Python `int(s)`: strip whitespace, optional sign, then a nonempty digit
run; any other shape raises `ValueError` (`none` here). -/
def pyInt (s : String) : Option Int :=
  match (pyStrip s).data with
  | '+' :: rest => (pyDigits? rest 0 false).map (fun n => (n : Int))
  | '-' :: rest => (pyDigits? rest 0 false).map (fun n => -(n : Int))
  | rest => (pyDigits? rest 0 false).map (fun n => (n : Int))

/-! ## Configuration constants (`class Config`) -/

namespace Config

def MAX_FILE_SIZE_MB : Nat := 500

def MAX_PATH_LENGTH : Nat := 200

def VERBOSE : Bool := true

end Config

/-! ## The path sanitizer (`_sanitize_path`) -/

/-- The source's `invalid_chars` list. -/
def invalid_chars : List Char := [':', '*', '?', '"', '<', '>', '|', '\n', '\r', '\t']

/-- The per-component loop body of `_sanitize_path`: the source replaces each
character of `invalid_chars` by `'_'` in turn via `str.replace`; since every
replacement is single character to single character and `'_'` is itself never
replaced, the sequence of replaces is the character map below.  Then a leading
`'.'` becomes `'_'` (`'_' + sanitized[1:]`), and the component is cut to 100
characters (`sanitized[:100]`). -/
def sanitizePart (part : List Char) : List Char :=
  let s := part.map (fun c => if c ∈ invalid_chars then '_' else c)
  let s := if s.head? = some '.' then '_' :: s.tail else s
  s.take 100

/-- The `sanitized_parts` list: the nonempty `'/'`-separated pieces of the
input, each sanitized. -/
def sanitizedParts (path : List Char) : List (List Char) :=
  ((splitOnSlash path).filter (fun p => p ≠ [])).map sanitizePart

/-- `'/'.join(sanitized_parts)`: the sanitized path before the total-length
truncation. -/
def joinedSanitized (path : List Char) : List Char := joinSlash (sanitizedParts path)

/-- `_sanitize_path` on character lists: join the sanitized components and,
if the result exceeds `MAX_PATH_LENGTH`, replace it by its first
`MAX_PATH_LENGTH - 10` characters, `'_'`, and the first 8 characters of the
md5 hexdigest of the joined (pre-truncation) result. -/
def sanitizeChars (path : List Char) : List Char :=
  let result := joinedSanitized path
  if result.length > Config.MAX_PATH_LENGTH then
    result.take (Config.MAX_PATH_LENGTH - 10) ++
      '_' :: (MD5.md5Hexdigest ⟨result⟩).take 8
  else result

/-- `_sanitize_path` of the source (string-level wrapper). -/
def _sanitize_path (path : String) : String := ⟨sanitizeChars path.data⟩

/-! ## Data model of the extraction session -/

/-- The `AcquisitionStats` dataclass.  MB totals are exact rationals (see the
header note); counters are naturals. -/
structure AcquisitionStats where
  volatile_mb : ℚ := 0
  app_data_mb : ℚ := 0
  media_mb : ℚ := 0
  documents_mb : ℚ := 0
  downloads_mb : ℚ := 0
  system_mb : ℚ := 0
  total_mb : ℚ := 0
  processes_scanned : Nat := 0
  memory_maps_acquired : Nat := 0
  apps_processed : Nat := 0
  databases_acquired : Nat := 0
  photos_acquired : Nat := 0
  videos_acquired : Nat := 0
  audio_acquired : Nat := 0
  documents_acquired : Nat := 0
  total_files : Nat := 0
  failed_files : Nat := 0
  path_errors : Nat := 0
  extraction_errors : Nat := 0
deriving DecidableEq, Repr

/-- One invocation of the device bridge: an `adb pull`, or an `adb shell`
command (`elevated` records whether it ran under `su`). -/
inductive PortCall where
  | pull (remote localPath : String)
  | shell (cmd : String) (elevated : Bool)
deriving DecidableEq, Repr

/-- The local filesystem: an association list from path to byte size. -/
abbrev FileSys := List (String × Nat)

/-- Byte size of the file at `p`, `none` when no such file exists. -/
def fsGet (fs : FileSys) (p : String) : Option Nat :=
  match fs.find? (fun e => e.1 = p) with
  | some e => some e.2
  | none => none

/-- Set (or, with `none`, remove) the file at `p`. -/
def fsSet (fs : FileSys) (p : String) (v : Option Nat) : FileSys :=
  let rest := fs.filter (fun e => e.1 ≠ p)
  match v with
  | some n => (p, n) :: rest
  | none => rest

/-- `local_file.exists() and local_file.stat().st_size > 0`. -/
def fsNonzero (fs : FileSys) (p : String) : Bool :=
  match fsGet fs p with
  | some n => decide (0 < n)
  | none => false

/-- `st_size / 1024 / 1024` (exact, see header note); `0` when the file is
missing, as `_get_file_size_mb` swallows the stat failure. -/
def bytesToMB (fs : FileSys) (p : String) : ℚ :=
  match fsGet fs p with
  | some n => (n : ℚ) / (1024 * 1024)
  | none => 0

/-- The environment: outcome of every external effect, as deterministic
functions of the visible arguments.  `pullSize` is the state of the local
target file after an `adb pull` (`none`: no file was produced); `shellOut`
and `shellCode` give captured text and status of a shell command (second
argument: whether it ran elevated).  `mkdirFail` injects the `OSError` of
`Path.mkdir`; `statFault` a fault of `Path.stat` at the resume check;
`unlinkFault` a fault of `Path.unlink`. -/
structure World where
  pullCode : String → String → Int
  pullSize : String → String → Option Nat
  shellOut : String → Bool → String
  shellCode : String → Bool → Int
  mkdirFail : String → Bool
  statFault : String → Bool
  unlinkFault : String → Bool

/-- The mutable state owned by a `ProductionForensicAcquisition` session that
`_extract_file_production` reads or writes, together with the local
filesystem and the model-level bookkeeping (port-call trace, count of
emitted log lines). -/
structure SessionState where
  stats : AcquisitionStats
  extracted_files : List String
  has_root : Bool
  temp_counter : Nat
  fs : FileSys
  calls : List PortCall
  logs : Nat
deriving DecidableEq

/-- `_add_to_stats`: route the MB size to the category's bucket, then bump
the grand total and the total file count. -/
def _add_to_stats (category : String) (size_mb : ℚ) (st : AcquisitionStats) :
    AcquisitionStats :=
  let st :=
    if category = "volatile" then { st with volatile_mb := st.volatile_mb + size_mb }
    else if category = "app_data" then { st with app_data_mb := st.app_data_mb + size_mb }
    else if category = "media" then { st with media_mb := st.media_mb + size_mb }
    else if category = "documents" then { st with documents_mb := st.documents_mb + size_mb }
    else if category = "downloads" then { st with downloads_mb := st.downloads_mb + size_mb }
    else if category = "system" then { st with system_mb := st.system_mb + size_mb }
    else st
  { st with total_mb := st.total_mb + size_mb, total_files := st.total_files + 1 }

/-- `self._adb(["pull", remote, local])`: record the call, let the world
decide the resulting local file, return the status code. -/
def adbPull (w : World) (remote localPath : String) (s : SessionState) :
    Int × SessionState :=
  (w.pullCode remote localPath,
   { s with calls := s.calls ++ [.pull remote localPath],
            fs := fsSet s.fs localPath (w.pullSize remote localPath) })

/-- `self._shell(cmd, as_root)`: runs under `su` only when `as_root` was
requested and the session has root. -/
def shellRun (w : World) (cmd : String) (as_root : Bool) (s : SessionState) :
    (String × Int) × SessionState :=
  let elev := as_root && s.has_root
  ((w.shellOut cmd elev, w.shellCode cmd elev),
   { s with calls := s.calls ++ [.shell cmd elev] })

/-! ## The extraction strategy chain and `_extract_file_production` -/

/-- The staging filename of Method 2:
`f"amat_{self.temp_counter}_{hashlib.md5(filename.encode()).hexdigest()[:8]}.tmp"`. -/
def tempName (counter : Nat) (filename : String) : String :=
  "amat_" ++ toString counter ++ "_" ++ ⟨(MD5.md5Hexdigest filename).take 8⟩ ++ ".tmp"

/-- The staging path used by Method 2. -/
def tempPath (counter : Nat) (filename : String) : String :=
  "/sdcard/Download/" ++ tempName counter filename

/-- The shell command of Method 2's `cp`. -/
def cpCmd (remote_path temp_path : String) : String :=
  "cp '" ++ remote_path ++ "' '" ++ temp_path ++ "'"

/-- The shell command of Method 2's `chmod`. -/
def chmodCmd (temp_path : String) : String := "chmod 644 '" ++ temp_path ++ "'"

/-- The shell command of Method 2's staging cleanup. -/
def rmCmd (temp_path : String) : String := "rm '" ++ temp_path ++ "'"

/-- The stat command of Method 3. -/
def statCmd (remote_path : String) : String :=
  "stat -c %s '" ++ remote_path ++ "' 2>/dev/null"

/-- The cat command of Method 3. -/
def catCmd (remote_path : String) : String :=
  "cat '" ++ remote_path ++ "' 2>/dev/null"

/-- Method 1 of the chain: direct `adb pull`, skipped for paths under the
two private-app-storage namespaces.  Success requires status 0 and a
non-empty local file. -/
def method1 (w : World) (remote_path local_file : String) (s : SessionState) :
    Bool × SessionState :=
  if !(pyStartswith remote_path "/data/data/") &&
      !(pyStartswith remote_path "/data/user/") then
    let (code, s) := adbPull w remote_path local_file s
    (decide (code = 0) && fsNonzero s.fs local_file, s)
  else (false, s)

/-- Method 2 of the chain: root copy to a staging file under
`/sdcard/Download`, `chmod 644`, pull of the staged copy, best-effort `rm`.
Run only when no earlier method succeeded and the session has root. -/
def method2 (w : World) (remote_path local_file filename : String)
    (success : Bool) (s : SessionState) : Bool × SessionState :=
  if !success && s.has_root then
    let s := { s with temp_counter := s.temp_counter + 1 }
    let temp_path := tempPath s.temp_counter filename
    let (_, s) := shellRun w (cpCmd remote_path temp_path) true s
    let (_, s) := shellRun w (chmodCmd temp_path) true s
    let (code, s) := adbPull w temp_path local_file s
    let (_, s) := shellRun w (rmCmd temp_path) true s
    (decide (code = 0) && fsNonzero s.fs local_file, s)
  else (success, s)

/-- Method 3 of the chain: `stat` the remote file and, when the reported
size is strictly between 0 and 5 MiB, `cat` it and write the captured text
locally.  Run only when no earlier method succeeded. -/
def method3 (w : World) (remote_path local_file : String) (success : Bool)
    (s : SessionState) : Bool × SessionState :=
  if !success then
    let (sr, s) := shellRun w (statCmd remote_path) s.has_root s
    match pyInt sr.1 with
    | none => (false, s)  -- int() raised ValueError; swallowed by the inner except
    | some file_size =>
      if decide (0 < file_size) && decide (file_size < 5 * 1024 * 1024) then
        let (cr, s) := shellRun w (catCmd remote_path) s.has_root s
        if decide (cr.2 = 0) && decide (cr.1 ≠ "") then
          -- the captured text is written to the local file; its on-disk size
          -- is the UTF-8 byte count of the text
          let s := { s with fs := fsSet s.fs local_file (some cr.1.utf8ByteSize) }
          (fsNonzero s.fs local_file, s)
        else (false, s)
      else (false, s)
  else (success, s)

/-- The three extraction methods of `_extract_file_production` (source lines
436-479), run in order with a `success` flag. -/
def strategyChain (w : World) (remote_path local_file filename : String)
    (s : SessionState) : Bool × SessionState :=
  let (success, s) := method1 w remote_path local_file s
  let (success, s) := method2 w remote_path local_file filename success s
  method3 w remote_path local_file success s

/-- The local target path of an extraction: `local_base_dir / safe_filename`
when flattened, else `local_base_dir / sanitize(remote_path.lstrip('/'))`. -/
def localTarget (remote_path local_base_dir : String) (flatten : Bool) : String :=
  if flatten then local_base_dir ++ "/" ++ _sanitize_path (pyBasename remote_path)
  else local_base_dir ++ "/" ++ _sanitize_path (pyLstripSlash remote_path)

/-- Everything inside the `try` of `_extract_file_production` (source lines
404–504).  `.error s` is an uncaught Python exception escaping the body with
session state `s`; `fallback` is the recursive flattened retry made when
directory creation fails and `flatten` is not yet set. -/
def extractBody (w : World) (remote_path local_base_dir category : String)
    (flatten : Bool) (fallback : SessionState → Bool × SessionState)
    (s : SessionState) : Except SessionState (Bool × SessionState) :=
  -- Skip if already extracted
  if remote_path ∈ s.extracted_files then .ok (false, s)
  else
    let filename := pyBasename remote_path
    let local_file := localTarget remote_path local_base_dir flatten
    -- Skip if exists (resume support); a stat fault here escapes the body
    if (fsGet s.fs local_file).isSome && w.statFault local_file then .error s
    else if fsNonzero s.fs local_file then .ok (false, s)
    -- Create parent directories; on OSError count a path error and retry
    -- once with flatten forced
    else if w.mkdirFail (pyDirname local_file) then
      let s := { s with stats := { s.stats with path_errors := s.stats.path_errors + 1 } }
      if flatten then .ok (false, s) else .ok (fallback s)
    else
      let (success, s) := strategyChain w remote_path local_file filename s
      -- Verify success
      if success && (fsGet s.fs local_file).isSome then
        let size_mb := bytesToMB s.fs local_file
        if size_mb = 0 then
          if w.unlinkFault local_file then .error s
          else .ok (false, { s with fs := fsSet s.fs local_file none })
        else if decide (0 < Config.MAX_FILE_SIZE_MB) &&
            decide ((Config.MAX_FILE_SIZE_MB : ℚ) < size_mb) then
          if w.unlinkFault local_file then .error s
          else
            -- self.log(f"Skipped large file ({size_mb:.1f}MB): {filename}", "DEBUG")
            let s := { s with fs := fsSet s.fs local_file none, logs := s.logs + 1 }
            .ok (false, s)
        else
          let s := { s with stats := _add_to_stats category size_mb s.stats }
          let s := { s with extracted_files := remote_path :: s.extracted_files }
          -- Track databases
          let s :=
            if pyEndswithAny remote_path [".db", ".sqlite", ".db-wal", ".db-shm"] then
              { s with stats :=
                { s.stats with databases_acquired := s.stats.databases_acquired + 1 } }
            else s
          .ok (true, s)
      else
        .ok (false, { s with stats := { s.stats with failed_files := s.stats.failed_files + 1 } })

/-- The `except Exception` handler: bump `extraction_errors` and log, but
only while fewer than 10 extraction errors have occurred (error-spam limit). -/
def handleExtractionError (s : SessionState) : Bool × SessionState :=
  let s := { s with stats :=
    { s.stats with extraction_errors := s.stats.extraction_errors + 1 } }
  let s :=
    if Config.VERBOSE && decide (s.stats.extraction_errors < 10) then
      { s with logs := s.logs + 1 }
    else s
  (false, s)

/-- One call level of `_extract_file_production`: run the body under the
`try`; any escaping fault is converted into `False` plus statistics. -/
def runExtract (w : World) (remote_path local_base_dir category : String)
    (flatten : Bool) (fallback : SessionState → Bool × SessionState)
    (s : SessionState) : Bool × SessionState :=
  match extractBody w remote_path local_base_dir category flatten fallback s with
  | .ok r => r
  | .error sf => handleExtractionError sf

/-- `_extract_file_production(remote_path, local_base_dir, category, flatten)`.
A `flatten=False` call retries once through the full function with
`flatten=True` when directory creation fails; a `flatten=True` call has no
further fallback (its fallback hook is never invoked, the body returns
`False` directly). -/
def theFallback (w : World) (remote_path local_base_dir category : String)
    (flatten : Bool) : SessionState → Bool × SessionState :=
  if flatten then (fun s => (false, s))
  else runExtract w remote_path local_base_dir category true (fun s => (false, s))

def _extract_file_production (w : World) (remote_path local_base_dir : String)
    (category : String) (flatten : Bool) (s : SessionState) : Bool × SessionState :=
  runExtract w remote_path local_base_dir category flatten
    (theFallback w remote_path local_base_dir category flatten) s

/-! ## Lemmas about `splitOnSlash` and `joinSlash` -/

theorem splitOnSlash_ne_nil (l : List Char) : splitOnSlash l ≠ [] := by
  cases l with
  | nil => simp [splitOnSlash]
  | cons c rest =>
    simp only [splitOnSlash]
    split
    · simp
    · split <;> simp

theorem splitOnSlash_no_slash (l : List Char) (h : '/' ∉ l) : splitOnSlash l = [l] := by
  induction l with
  | nil => rfl
  | cons c rest ih =>
    have hc : ¬ c = '/' := fun e => h (by simp [e])
    have hr : '/' ∉ rest := fun m => h (List.mem_cons_of_mem _ m)
    simp [splitOnSlash, hc, ih hr]

theorem splitOnSlash_append_slash (p t : List Char) (h : '/' ∉ p) :
    splitOnSlash (p ++ '/' :: t) = p :: splitOnSlash t := by
  induction p with
  | nil => simp [splitOnSlash]
  | cons c rest ih =>
    have hc : ¬ c = '/' := fun e => h (by simp [e])
    have hr : '/' ∉ rest := fun m => h (List.mem_cons_of_mem _ m)
    simp [splitOnSlash, hc, ih hr]

theorem splitOnSlash_joinSlash (parts : List (List Char)) (hne : parts ≠ [])
    (h : ∀ part ∈ parts, '/' ∉ part) :
    splitOnSlash (joinSlash parts) = parts := by
  induction parts with
  | nil => exact absurd rfl hne
  | cons p ps ih =>
    cases ps with
    | nil => simpa [joinSlash] using splitOnSlash_no_slash p (h p (by simp))
    | cons q qs =>
      rw [joinSlash, splitOnSlash_append_slash p _ (h p (by simp)),
        ih (by simp) (fun part hm => h part (List.mem_cons_of_mem _ hm))]

/-- Characters of a component of `splitOnSlash l` come from `l` and are
never `'/'`. -/
theorem mem_of_mem_splitOnSlash {l comp : List Char} (hc : comp ∈ splitOnSlash l)
    {a : Char} (ha : a ∈ comp) : a ∈ l ∧ a ≠ '/' := by
  induction l generalizing comp with
  | nil =>
    simp [splitOnSlash] at hc
    subst hc
    simp at ha
  | cons c rest ih =>
    by_cases hslash : c = '/'
    · subst hslash
      have heq : splitOnSlash ('/' :: rest) = [] :: splitOnSlash rest := by
        simp [splitOnSlash]
      rw [heq] at hc
      rcases List.mem_cons.mp hc with h0 | hc'
      · subst h0; simp at ha
      · obtain ⟨h1, h2⟩ := ih hc' ha
        exact ⟨List.mem_cons_of_mem _ h1, h2⟩
    · cases hrest : splitOnSlash rest with
      | nil => exact absurd hrest (splitOnSlash_ne_nil rest)
      | cons p ps =>
        simp only [splitOnSlash, if_neg hslash, hrest, List.mem_cons] at hc
        rcases hc with rfl | hc
        · rcases List.mem_cons.mp ha with rfl | hp
          · exact ⟨List.mem_cons_self _ _, hslash⟩
          · obtain ⟨h1, h2⟩ := ih (hrest ▸ List.mem_cons_self p ps) hp
            exact ⟨List.mem_cons_of_mem _ h1, h2⟩
        · obtain ⟨h1, h2⟩ := ih (hrest ▸ List.mem_cons_of_mem p hc) ha
          exact ⟨List.mem_cons_of_mem _ h1, h2⟩

theorem splitOnSlash_cons_ne (c : Char) (rest : List Char) (hc : ¬ c = '/')
    (p : List Char) (ps : List (List Char)) (hrest : splitOnSlash rest = p :: ps) :
    splitOnSlash (c :: rest) = (c :: p) :: ps := by
  simp [splitOnSlash, hc, hrest]

/-- The components of a length-truncated string: an initial segment of the
original components followed by a truncation of the next component. -/
theorem splitOnSlash_take (l : List Char) (n : Nat) :
    ∃ j k, splitOnSlash (l.take n) =
      (splitOnSlash l).take j ++ [((splitOnSlash l).getD j []).take k] := by
  induction l generalizing n with
  | nil => exact ⟨0, 0, by simp [splitOnSlash]⟩
  | cons c rest ih =>
    cases n with
    | zero => exact ⟨0, 0, by simp [splitOnSlash]⟩
    | succ m =>
      obtain ⟨j, k, hjk⟩ := ih m
      by_cases hc : c = '/'
      · subst hc
        refine ⟨j + 1, k, ?_⟩
        have h1 : splitOnSlash (('/' :: rest).take (m + 1)) =
            [] :: splitOnSlash (rest.take m) := by simp [splitOnSlash]
        have h2 : splitOnSlash ('/' :: rest) = [] :: splitOnSlash rest := by
          simp [splitOnSlash]
        rw [h1, hjk, h2, List.take_succ_cons, List.getD_cons_succ]
        rfl
      · cases hS : splitOnSlash rest with
        | nil => exact absurd hS (splitOnSlash_ne_nil rest)
        | cons s0 srest =>
          have hSc : splitOnSlash (c :: rest) = (c :: s0) :: srest :=
            splitOnSlash_cons_ne c rest hc s0 srest hS
          rw [hS] at hjk
          cases j with
          | zero =>
            rw [List.take_zero, List.nil_append, List.getD_cons_zero] at hjk
            refine ⟨0, k + 1, ?_⟩
            have h3 : splitOnSlash ((c :: rest).take (m + 1)) = (c :: s0.take k) :: [] := by
              rw [List.take_succ_cons]
              exact splitOnSlash_cons_ne c _ hc _ [] hjk
            rw [h3, hSc, List.take_zero, List.nil_append, List.getD_cons_zero,
              List.take_succ_cons]
          | succ j' =>
            rw [List.take_succ_cons, List.getD_cons_succ, List.cons_append] at hjk
            refine ⟨j' + 1, k, ?_⟩
            have h3 : splitOnSlash ((c :: rest).take (m + 1)) =
                (c :: s0) :: (srest.take j' ++ [(srest.getD j' []).take k]) := by
              rw [List.take_succ_cons]
              exact splitOnSlash_cons_ne c _ hc _ _ hjk
            rw [h3, hSc, List.take_succ_cons, List.getD_cons_succ, List.cons_append]

/-- Appending slash-free text extends the final component and leaves the
other components unchanged. -/
theorem splitOnSlash_append_no_slash (l suf : List Char) (h : '/' ∉ suf) :
    ∃ front last, splitOnSlash l = front ++ [last] ∧
      splitOnSlash (l ++ suf) = front ++ [last ++ suf] := by
  induction l with
  | nil =>
    exact ⟨[], [], by simp [splitOnSlash], by simpa using splitOnSlash_no_slash suf h⟩
  | cons c rest ih =>
    obtain ⟨front, last, h1, h2⟩ := ih
    by_cases hc : c = '/'
    · subst hc
      refine ⟨[] :: front, last, ?_, ?_⟩
      · have he : splitOnSlash ('/' :: rest) = [] :: splitOnSlash rest := by
          simp [splitOnSlash]
        rw [he, h1]; rfl
      · have he : splitOnSlash ('/' :: (rest ++ suf)) = [] :: splitOnSlash (rest ++ suf) := by
          simp [splitOnSlash]
        rw [List.cons_append, he, h2]; rfl
    · cases front with
      | nil =>
        refine ⟨[], c :: last, ?_, ?_⟩
        · rw [List.nil_append] at h1
          simpa using splitOnSlash_cons_ne c rest hc last [] h1
        · rw [List.nil_append] at h2
          rw [List.cons_append]
          simpa using splitOnSlash_cons_ne c (rest ++ suf) hc (last ++ suf) [] h2
      | cons f fs =>
        refine ⟨(c :: f) :: fs, last, ?_, ?_⟩
        · have he := splitOnSlash_cons_ne c rest hc f (fs ++ [last]) (by rw [h1]; rfl)
          rw [he]; rfl
        · have he := splitOnSlash_cons_ne c (rest ++ suf) hc f (fs ++ [last ++ suf])
            (by rw [h2]; rfl)
          rw [List.cons_append, he]; rfl

/-! ## Lemmas about `sanitizePart`, `joinSlash` and the md5 hexdigest -/

theorem head?_take_pos (l : List Char) (n : Nat) (hn : 0 < n) :
    (l.take n).head? = l.head? := by
  cases l with
  | nil => simp
  | cons x xs =>
    cases n with
    | zero => omega
    | succ m => simp [List.take_succ_cons]

theorem sanitizePart_length (part : List Char) : (sanitizePart part).length ≤ 100 := by
  have h : ∀ l : List Char, (l.take 100).length ≤ 100 := fun l => by
    rw [List.length_take]; exact Nat.min_le_left _ _
  simp only [sanitizePart]
  exact h _

theorem sanitizePart_ne_nil (part : List Char) (h : part ≠ []) : sanitizePart part ≠ [] := by
  simp only [sanitizePart]
  intro hco
  rcases List.take_eq_nil_iff.mp hco with h100 | hnil
  · exact absurd h100 (by norm_num)
  · split at hnil
    · exact List.cons_ne_nil _ _ hnil
    · exact h (List.map_eq_nil_iff.mp hnil)

theorem sanitizePart_head (part : List Char) : (sanitizePart part).head? ≠ some '.' := by
  simp only [sanitizePart]
  rw [head?_take_pos _ 100 (by norm_num)]
  split
  · intro hco
    exact absurd (Option.some.inj hco) (by decide)
  next hdot => exact hdot

theorem mem_sanitizePart {part : List Char} {c : Char} (hc : c ∈ sanitizePart part) :
    c = '_' ∨ (c ∈ part ∧ c ∉ invalid_chars) := by
  simp only [sanitizePart] at hc
  have hc2 := List.take_subset _ _ hc
  have hstep : c = '_' ∨ c ∈ part.map (fun x => if x ∈ invalid_chars then '_' else x) := by
    split at hc2
    · rcases List.mem_cons.mp hc2 with rfl | htail
      · exact Or.inl rfl
      · exact Or.inr (List.mem_of_mem_tail htail)
    · exact Or.inr hc2
  rcases hstep with rfl | hmap
  · exact Or.inl rfl
  · obtain ⟨x, hx, hfx⟩ := List.mem_map.mp hmap
    by_cases hinv : x ∈ invalid_chars
    · rw [if_pos hinv] at hfx
      exact Or.inl hfx.symm
    · rw [if_neg hinv] at hfx
      exact Or.inr ⟨hfx ▸ hx, hfx ▸ hinv⟩

theorem mem_joinSlash {parts : List (List Char)} {c : Char} (hc : c ∈ joinSlash parts) :
    c = '/' ∨ ∃ part ∈ parts, c ∈ part := by
  induction parts with
  | nil => simp [joinSlash] at hc
  | cons p ps ih =>
    cases ps with
    | nil => exact Or.inr ⟨p, by simp, by simpa [joinSlash] using hc⟩
    | cons q qs =>
      rw [joinSlash] at hc
      rcases List.mem_append.mp hc with hp | hrest
      · exact Or.inr ⟨p, by simp, hp⟩
      · rcases List.mem_cons.mp hrest with rfl | hjoin
        · exact Or.inl rfl
        · rcases ih hjoin with h | ⟨part, hm, hcm⟩
          · exact Or.inl h
          · exact Or.inr ⟨part, List.mem_cons_of_mem _ hm, hcm⟩

theorem getD_mem_or_eq {α : Type} (l : List α) (n : Nat) (d : α) :
    l.getD n d ∈ l ∨ l.getD n d = d := by
  induction l generalizing n with
  | nil => right; simp
  | cons x xs ih =>
    cases n with
    | zero => left; simp [List.getD_cons_zero]
    | succ m =>
      rw [List.getD_cons_succ]
      rcases ih m with h | h
      · exact Or.inl (List.mem_cons_of_mem _ h)
      · exact Or.inr h

theorem byteHex_subset (b : Nat) : ∀ c ∈ MD5.byteHex b, c ∈ MD5.hexAlphabet := by
  intro c hc
  rcases List.mem_cons.mp hc with rfl | hc2
  · rcases getD_mem_or_eq MD5.hexAlphabet (b / 16 % 16) '0' with h | h
    · exact h
    · rw [h]; decide
  · rcases List.mem_cons.mp hc2 with rfl | hc3
    · rcases getD_mem_or_eq MD5.hexAlphabet (b % 16) '0' with h | h
      · exact h
      · rw [h]; decide
    · simp at hc3

theorem md5Bytes_length (msg : List Nat) : (MD5.md5Bytes msg).length = 16 := by
  simp [MD5.md5Bytes, MD5.leBytes]

theorem length_flatMap_byteHex (l : List Nat) :
    (l.flatMap MD5.byteHex).length = 2 * l.length := by
  induction l with
  | nil => simp
  | cons b bs ih =>
    simp only [List.flatMap_cons, List.length_append, ih, List.length_cons]
    simp [MD5.byteHex]
    ring

theorem md5Hexdigest_length (s : String) : (MD5.md5Hexdigest s).length = 32 := by
  rw [MD5.md5Hexdigest, MD5.md5HexBytes, length_flatMap_byteHex, md5Bytes_length]

theorem md5Hexdigest_mem (s : String) : ∀ c ∈ MD5.md5Hexdigest s, c ∈ MD5.hexAlphabet := by
  intro c hc
  rw [MD5.md5Hexdigest, MD5.md5HexBytes] at hc
  obtain ⟨b, _, hb⟩ := List.mem_flatMap.mp hc
  exact byteHex_subset b c hb

theorem hexAlphabet_ok : ∀ c ∈ MD5.hexAlphabet, c ∉ invalid_chars ∧ c ≠ '/' ∧ c ≠ '.' := by
  decide

/-! ## Structure of the sanitized output -/

/-- Every piece joined by `joinedSanitized` is short, nonempty, free of
illegal characters and `'/'`, and does not start with a dot. -/
theorem sanitizedParts_spec (p : List Char) :
    ∀ part ∈ sanitizedParts p,
      part.length ≤ 100 ∧ part ≠ [] ∧ part.head? ≠ some '.' ∧ '/' ∉ part ∧
        ∀ c ∈ part, c ∉ invalid_chars := by
  intro part hpart
  obtain ⟨q, hq, rfl⟩ := List.mem_map.mp hpart
  have hqmem : q ∈ splitOnSlash p := List.mem_of_mem_filter hq
  have hqne : q ≠ [] := by simpa using (List.mem_filter.mp hq).2
  refine ⟨sanitizePart_length q, sanitizePart_ne_nil q hqne, sanitizePart_head q, ?_, ?_⟩
  · intro hslash
    rcases mem_sanitizePart hslash with h | ⟨hin, _⟩
    · exact absurd h (by decide)
    · exact (mem_of_mem_splitOnSlash hqmem hin).2 rfl
  · intro c hc hinv
    rcases mem_sanitizePart hc with rfl | ⟨_, hni⟩
    · exact absurd hinv (by decide)
    · exact hni hinv

theorem joinedSanitized_nil (p : List Char) (h : sanitizedParts p = []) :
    joinedSanitized p = [] := by rw [joinedSanitized, h]; rfl

theorem splitOnSlash_joinedSanitized (p : List Char) (h : sanitizedParts p ≠ []) :
    splitOnSlash (joinedSanitized p) = sanitizedParts p :=
  splitOnSlash_joinSlash _ h (fun part hm => (sanitizedParts_spec p part hm).2.2.2.1)

theorem mem_joinedSanitized {p : List Char} {c : Char} (hc : c ∈ joinedSanitized p) :
    c ∉ invalid_chars := by
  rcases mem_joinSlash hc with rfl | ⟨part, hm, hcm⟩
  · decide
  · exact (sanitizedParts_spec p part hm).2.2.2.2 c hcm

/-- Components of the joined sanitized string are at most 100 characters and
never start with a dot. -/
theorem splitOnSlash_joined_facts (p : List Char) :
    ∀ comp ∈ splitOnSlash (joinedSanitized p),
      comp.length ≤ 100 ∧ comp.head? ≠ some '.' := by
  intro comp hcomp
  by_cases hnil : sanitizedParts p = []
  · rw [joinedSanitized_nil p hnil] at hcomp
    have : comp = ([] : List Char) := by simpa [splitOnSlash] using hcomp
    subst this
    exact ⟨by simp, by simp⟩
  · rw [splitOnSlash_joinedSanitized p hnil] at hcomp
    have h := sanitizedParts_spec p comp hcomp
    exact ⟨h.1, h.2.2.1⟩

/-! ## Claim C3: the sanitizer's length invariant -/

/-- **C3**  For every input string `p`, `len(_sanitize_path(p))` is at most
`MAX_PATH_LENGTH` (200): when the joined sanitized result exceeds the
maximum, it is replaced by its first `MAX_PATH_LENGTH - 10` characters, an
underscore, and the first 8 hex characters of the md5 hexdigest of the
joined string, for a final length of exactly 199 ≤ 200. -/
theorem sanitize_length_invariant (p : String) :
    (_sanitize_path p).length ≤ Config.MAX_PATH_LENGTH ∧
      ((joinedSanitized p.data).length > Config.MAX_PATH_LENGTH →
        (_sanitize_path p).data =
          (joinedSanitized p.data).take (Config.MAX_PATH_LENGTH - 10) ++
            '_' :: (MD5.md5Hexdigest ⟨joinedSanitized p.data⟩).take 8 ∧
        (_sanitize_path p).length = 199) := by
  have hdata : (_sanitize_path p).data = sanitizeChars p.data := rfl
  have hlen : (_sanitize_path p).length = (sanitizeChars p.data).length := rfl
  have hM : Config.MAX_PATH_LENGTH = 200 := rfl
  by_cases hlong : (joinedSanitized p.data).length > Config.MAX_PATH_LENGTH
  · have hout : sanitizeChars p.data =
        (joinedSanitized p.data).take (Config.MAX_PATH_LENGTH - 10) ++
          '_' :: (MD5.md5Hexdigest ⟨joinedSanitized p.data⟩).take 8 := by
      rw [sanitizeChars, if_pos hlong]
    have hlen199 : (sanitizeChars p.data).length = 199 := by
      rw [hout, List.length_append, List.length_take, List.length_cons, List.length_take,
        md5Hexdigest_length]
      omega
    exact ⟨by rw [hlen, hlen199]; omega,
      fun _ => ⟨by rw [hdata, hout], by rw [hlen, hlen199]⟩⟩
  · have hout : sanitizeChars p.data = joinedSanitized p.data := by
      rw [sanitizeChars, if_neg hlong]
    refine ⟨?_, fun hcontra => absurd hcontra hlong⟩
    rw [hlen, hout]
    omega

/-- Input for the C3 witness: three components of sizes 95, 100 and 10, so
the joined sanitized string is 207 characters long. -/
def c3input : String :=
  ⟨List.replicate 95 'a' ++ '/' :: List.replicate 100 'b' ++ '/' :: List.replicate 10 'c'⟩

set_option maxRecDepth 40000 in
theorem sanitize_length_invariant_witness :
    (joinedSanitized c3input.data).length > Config.MAX_PATH_LENGTH ∧
      (_sanitize_path c3input).length = 199 :=
  ⟨by decide, ((sanitize_length_invariant c3input).2 (by decide)).2⟩

/-! ## Claim C4: the LocalPath guarantees of the sanitizer -/

/-- **C4 (amended)**  For every input string, the sanitizer's output
contains no illegal character and no component of the output begins with a
dot.  Components are bounded by 100 characters whenever the joined sanitized
string needed no length-hash truncation; when truncation applies, the final
component may grow to at most 109 characters (a 100-character truncated
component plus `'_'` plus the 8-character hash). -/
theorem sanitize_localpath_guarantees (p : String) :
    (∀ c ∈ (_sanitize_path p).data, c ∉ invalid_chars) ∧
      (∀ comp ∈ splitOnSlash (_sanitize_path p).data, comp.head? ≠ some '.') ∧
      (∀ comp ∈ splitOnSlash (_sanitize_path p).data, comp.length ≤ 109) ∧
      ((joinedSanitized p.data).length ≤ Config.MAX_PATH_LENGTH →
        ∀ comp ∈ splitOnSlash (_sanitize_path p).data, comp.length ≤ 100) := by
  have hdata : (_sanitize_path p).data = sanitizeChars p.data := rfl
  by_cases hlong : (joinedSanitized p.data).length > Config.MAX_PATH_LENGTH
  case neg =>
    have hout : (_sanitize_path p).data = joinedSanitized p.data := by
      rw [hdata, sanitizeChars, if_neg hlong]
    rw [hout]
    exact ⟨fun c hc => mem_joinedSanitized hc,
      fun comp hm => (splitOnSlash_joined_facts _ comp hm).2,
      fun comp hm => le_trans (splitOnSlash_joined_facts _ comp hm).1 (by norm_num),
      fun _ comp hm => (splitOnSlash_joined_facts _ comp hm).1⟩
  case pos =>
    have hout : (_sanitize_path p).data =
        (joinedSanitized p.data).take 190 ++
          '_' :: (MD5.md5Hexdigest ⟨joinedSanitized p.data⟩).take 8 := by
      rw [hdata, sanitizeChars, if_pos hlong]
      rfl
    have h8sub : ∀ c ∈ (MD5.md5Hexdigest ⟨joinedSanitized p.data⟩).take 8,
        c ∈ MD5.hexAlphabet := fun c hc => md5Hexdigest_mem _ c (List.take_subset _ _ hc)
    have hnos : '/' ∉ ('_' :: (MD5.md5Hexdigest ⟨joinedSanitized p.data⟩).take 8) := by
      intro hmem
      rcases List.mem_cons.mp hmem with h | h
      · exact absurd h (by decide)
      · exact (hexAlphabet_ok _ (h8sub _ h)).2.1 rfl
    have hchars : ∀ c ∈ (_sanitize_path p).data, c ∉ invalid_chars := by
      rw [hout]
      intro c hc
      rcases List.mem_append.mp hc with h | h
      · exact mem_joinedSanitized (List.take_subset _ _ h)
      · rcases List.mem_cons.mp h with rfl | h
        · decide
        · exact (hexAlphabet_ok _ (h8sub _ h)).1
    obtain ⟨front, last, hfl1, hfl2⟩ :=
      splitOnSlash_append_no_slash ((joinedSanitized p.data).take 190) _ hnos
    obtain ⟨j, k, hjk⟩ := splitOnSlash_take (joinedSanitized p.data) 190
    obtain ⟨hfr, hla⟩ := List.append_inj' (hfl1.symm.trans hjk) (by simp)
    have hla2 : last = ((splitOnSlash (joinedSanitized p.data)).getD j []).take k := by
      simpa using hla
    rw [hfr, hla2] at hfl2
    have hcomps : ∀ comp ∈ splitOnSlash (_sanitize_path p).data,
        comp.head? ≠ some '.' ∧ comp.length ≤ 109 := by
      rw [hout, hfl2]
      intro comp hm
      rcases List.mem_append.mp hm with h | h
      · have hcm : comp ∈ splitOnSlash (joinedSanitized p.data) := List.take_subset _ _ h
        have hf := splitOnSlash_joined_facts p.data comp hcm
        exact ⟨hf.2, le_trans hf.1 (by norm_num)⟩
      · have hcomp : comp = ((splitOnSlash (joinedSanitized p.data)).getD j []).take k ++
            '_' :: (MD5.md5Hexdigest ⟨joinedSanitized p.data⟩).take 8 := by
          simpa using h
        subst hcomp
        constructor
        · cases hA : ((splitOnSlash (joinedSanitized p.data)).getD j []).take k with
          | nil =>
            rw [List.nil_append]
            intro hco
            exact absurd (Option.some.inj hco) (by decide)
          | cons a A' =>
            rw [List.cons_append]
            intro hco
            have ha : a = '.' := Option.some.inj hco
            have hk : 0 < k := by
              rcases Nat.eq_zero_or_pos k with hk0 | hk0
              · rw [hk0, List.take_zero] at hA
                exact absurd hA.symm (List.cons_ne_nil a A')
              · exact hk0
            have hX : (splitOnSlash (joinedSanitized p.data)).getD j [] ∈
                splitOnSlash (joinedSanitized p.data) := by
              rcases getD_mem_or_eq (splitOnSlash (joinedSanitized p.data)) j [] with h' | h'
              · exact h'
              · rw [h', List.take_nil] at hA
                exact absurd hA.symm (List.cons_ne_nil a A')
            have hhead := (splitOnSlash_joined_facts p.data _ hX).2
            rw [← head?_take_pos ((splitOnSlash (joinedSanitized p.data)).getD j []) k hk,
              hA] at hhead
            exact hhead (by rw [List.head?_cons, ha])
        · rw [List.length_append, List.length_cons]
          have h1 : (((splitOnSlash (joinedSanitized p.data)).getD j []).take k).length ≤ 100 := by
            rcases getD_mem_or_eq (splitOnSlash (joinedSanitized p.data)) j [] with h' | h'
            · exact le_trans (by rw [List.length_take]; exact Nat.min_le_right _ _)
                (splitOnSlash_joined_facts p.data _ h').1
            · rw [h']; simp
          have h2 : ((MD5.md5Hexdigest ⟨joinedSanitized p.data⟩).take 8).length ≤ 8 := by
            rw [List.length_take]; exact Nat.min_le_left _ _
          omega
    exact ⟨hchars, fun comp hm => (hcomps comp hm).1, fun comp hm => (hcomps comp hm).2,
      fun hcontra => absurd hcontra (not_le.mpr hlong)⟩

/-- The component `"data"` of the sanitized scenario path, for the witness. -/
def c4comp : List Char := ['d', 'a', 't', 'a']

set_option maxRecDepth 40000 in
theorem sanitize_localpath_guarantees_witness :
    (joinedSanitized ("/data/data/com.example:app/databases/chat.db" : String).data).length ≤
        Config.MAX_PATH_LENGTH ∧
      c4comp ∈ splitOnSlash
        (_sanitize_path "/data/data/com.example:app/databases/chat.db").data ∧
      c4comp.length ≤ 100 :=
  ⟨by decide, by decide,
    (sanitize_localpath_guarantees "/data/data/com.example:app/databases/chat.db").2.2.2
      (by decide) c4comp (by decide)⟩

/-- Input for the C4 counterexample: components of sizes 95, 100 and 10. -/
def c4input : String :=
  ⟨List.replicate 95 'a' ++ '/' :: List.replicate 100 'b' ++ '/' :: List.replicate 10 'c'⟩

set_option maxRecDepth 100000 in
/-- **C4 counterexample**  The claim's bound of 100 characters per output
component fails: on `c4input` the hash-truncated output ends in a component
of 103 characters (94 `b`s, an underscore, and 8 hash characters). -/
theorem sanitize_component_over_100 :
    ¬ ∀ comp ∈ splitOnSlash (_sanitize_path c4input).data, comp.length ≤ 100 := by
  intro hall
  have hlong : (joinedSanitized c4input.data).length > Config.MAX_PATH_LENGTH := by decide
  have hout : (_sanitize_path c4input).data =
      (joinedSanitized c4input.data).take 190 ++
        '_' :: (MD5.md5Hexdigest ⟨joinedSanitized c4input.data⟩).take 8 := by
    rw [show (_sanitize_path c4input).data = sanitizeChars c4input.data from rfl,
      sanitizeChars, if_pos hlong]
    rfl
  have h8sub : ∀ c ∈ (MD5.md5Hexdigest ⟨joinedSanitized c4input.data⟩).take 8,
      c ∈ MD5.hexAlphabet := fun c hc => md5Hexdigest_mem _ c (List.take_subset _ _ hc)
  have hnos : '/' ∉ ('_' :: (MD5.md5Hexdigest ⟨joinedSanitized c4input.data⟩).take 8) := by
    intro hmem
    rcases List.mem_cons.mp hmem with h | h
    · exact absurd h (by decide)
    · exact (hexAlphabet_ok _ (h8sub _ h)).2.1 rfl
  obtain ⟨front, last, hfl1, hfl2⟩ :=
    splitOnSlash_append_no_slash ((joinedSanitized c4input.data).take 190) _ hnos
  have hsplit : splitOnSlash ((joinedSanitized c4input.data).take 190) =
      [List.replicate 95 'a'] ++ [List.replicate 94 'b'] := by decide
  obtain ⟨hfr, hla⟩ := List.append_inj' (hfl1.symm.trans hsplit) (by simp)
  have hla' : last = List.replicate 94 'b' := by simpa using hla
  rw [hfr, hla'] at hfl2
  have hcomp : List.replicate 94 'b' ++
      '_' :: (MD5.md5Hexdigest ⟨joinedSanitized c4input.data⟩).take 8 ∈
      splitOnSlash (_sanitize_path c4input).data := by
    rw [hout, hfl2]
    simp
  have hlen := hall _ hcomp
  have hh8len : ((MD5.md5Hexdigest ⟨joinedSanitized c4input.data⟩).take 8).length = 8 := by
    rw [List.length_take, md5Hexdigest_length]
    decide
  rw [List.length_append, List.length_cons, hh8len, List.length_replicate] at hlen
  omega

/-! ## Claim C5: behaviour of sanitization under shared long prefixes -/

/-- First C5 input: 195 `a`s, a colon, 10 `b`s. -/
def c5inputA : String := ⟨List.replicate 195 'a' ++ ':' :: List.replicate 10 'b'⟩

/-- Second C5 input: 195 `a`s, an asterisk, 10 `b`s. -/
def c5inputB : String := ⟨List.replicate 195 'a' ++ '*' :: List.replicate 10 'b'⟩

set_option maxRecDepth 100000 in
/-- **C5 counterexample**  Two distinct inputs that agree on their first
`MAX_PATH_LENGTH - 10 = 190` characters and differ afterwards, yet sanitize
to the same output: the difference is erased by illegal-character
replacement and the 100-character component truncation, which both happen
before the hash is computed, so the hash is not a function of the original
string. -/
theorem sanitize_collision_after_190 :
    c5inputA ≠ c5inputB ∧
      c5inputA.data.take (Config.MAX_PATH_LENGTH - 10) =
        c5inputB.data.take (Config.MAX_PATH_LENGTH - 10) ∧
      c5inputA.data.drop (Config.MAX_PATH_LENGTH - 10) ≠
        c5inputB.data.drop (Config.MAX_PATH_LENGTH - 10) ∧
      _sanitize_path c5inputA = _sanitize_path c5inputB :=
  ⟨by decide, by decide, by decide, by decide⟩

/-- **C5 (amended)**  The truncation hash is computed over the joined
*sanitized* string, not over the original input, so what holds is: for two
inputs whose joined sanitized strings each exceed `MAX_PATH_LENGTH` and
agree on their first 190 characters, the sanitized outputs differ exactly
when the 8-hex-character md5 suffixes of the two joined strings differ.
Distinct inputs whose difference is erased by sanitization itself (illegal
characters, 100-character component truncation) can therefore collide. -/
theorem sanitize_truncation_hash (p q : String)
    (hp : (joinedSanitized p.data).length > Config.MAX_PATH_LENGTH)
    (hq : (joinedSanitized q.data).length > Config.MAX_PATH_LENGTH)
    (hshare : (joinedSanitized p.data).take (Config.MAX_PATH_LENGTH - 10) =
      (joinedSanitized q.data).take (Config.MAX_PATH_LENGTH - 10)) :
    _sanitize_path p = _sanitize_path q ↔
      (MD5.md5Hexdigest ⟨joinedSanitized p.data⟩).take 8 =
        (MD5.md5Hexdigest ⟨joinedSanitized q.data⟩).take 8 := by
  have houtp : (_sanitize_path p).data =
      (joinedSanitized p.data).take (Config.MAX_PATH_LENGTH - 10) ++
        '_' :: (MD5.md5Hexdigest ⟨joinedSanitized p.data⟩).take 8 := by
    rw [show (_sanitize_path p).data = sanitizeChars p.data from rfl,
      sanitizeChars, if_pos hp]
  have houtq : (_sanitize_path q).data =
      (joinedSanitized q.data).take (Config.MAX_PATH_LENGTH - 10) ++
        '_' :: (MD5.md5Hexdigest ⟨joinedSanitized q.data⟩).take 8 := by
    rw [show (_sanitize_path q).data = sanitizeChars q.data from rfl,
      sanitizeChars, if_pos hq]
  constructor
  · intro h
    have hd := congrArg String.data h
    rw [houtp, houtq, hshare] at hd
    have h2 := List.append_cancel_left hd
    exact (List.cons.injEq _ _ _ _).mp h2 |>.2
  · intro h
    have hd : (_sanitize_path p).data = (_sanitize_path q).data := by
      rw [houtp, houtq, hshare, h]
    cases hP : _sanitize_path p with
    | mk dp =>
      cases hQ : _sanitize_path q with
      | mk dq =>
        rw [hP, hQ] at hd
        exact congrArg String.mk (by simpa using hd)

/-- First C5 witness input: components of sizes 95, 95 and 15 ending in `c`s. -/
def c5wA : String :=
  ⟨List.replicate 95 'a' ++ '/' :: List.replicate 95 'b' ++ '/' :: List.replicate 15 'c'⟩

/-- Second C5 witness input: same but ending in `d`s. -/
def c5wB : String :=
  ⟨List.replicate 95 'a' ++ '/' :: List.replicate 95 'b' ++ '/' :: List.replicate 15 'd'⟩

set_option maxRecDepth 100000 in
theorem sanitize_truncation_hash_witness :
    (joinedSanitized c5wA.data).length > Config.MAX_PATH_LENGTH ∧
      (joinedSanitized c5wB.data).length > Config.MAX_PATH_LENGTH ∧
      (joinedSanitized c5wA.data).take (Config.MAX_PATH_LENGTH - 10) =
        (joinedSanitized c5wB.data).take (Config.MAX_PATH_LENGTH - 10) ∧
      (_sanitize_path c5wA = _sanitize_path c5wB ↔
        (MD5.md5Hexdigest ⟨joinedSanitized c5wA.data⟩).take 8 =
          (MD5.md5Hexdigest ⟨joinedSanitized c5wB.data⟩).take 8) :=
  ⟨by decide, by decide, by decide,
    sanitize_truncation_hash c5wA c5wB (by decide) (by decide) (by decide)⟩

/-! ## Lemmas about the filesystem model -/

theorem fsGet_fsSet_self (fs : FileSys) (p : String) (v : Option Nat) :
    fsGet (fsSet fs p v) p = v := by
  cases v with
  | some n => simp [fsGet, fsSet]
  | none =>
    simp only [fsGet, fsSet]
    cases hf : List.find? (fun e => e.1 = p) (fs.filter (fun e => e.1 ≠ p)) with
    | none => rfl
    | some e =>
      exfalso
      have h1 : e.1 = p := by simpa using List.find?_some hf
      have h2 : e ∈ fs.filter (fun e => e.1 ≠ p) := List.mem_of_find?_eq_some hf
      have h3 : ¬ e.1 = p := by simpa using (List.mem_filter.mp h2).2
      exact h3 h1

theorem fsGet_fsSet_ne (fs : FileSys) (p q : String) (v : Option Nat) (h : ¬ q = p) :
    fsGet (fsSet fs p v) q = fsGet fs q := by
  have hfilter : ∀ l : FileSys, (l.filter (fun e => e.1 ≠ p)).find? (fun e => e.1 = q) =
      l.find? (fun e => e.1 = q) := by
    intro l
    induction l with
    | nil => rfl
    | cons e rest ih =>
      by_cases he : e.1 = p
      · have hq : ¬ e.1 = q := by rw [he]; exact fun hh => h hh.symm
        rw [List.filter_cons_of_neg (by simpa using he),
          List.find?_cons_of_neg _ (by simpa using hq), ih]
      · rw [List.filter_cons_of_pos (by simpa using he)]
        by_cases heq : e.1 = q
        · rw [List.find?_cons_of_pos _ (by simpa using heq),
            List.find?_cons_of_pos _ (by simpa using heq)]
        · rw [List.find?_cons_of_neg _ (by simpa using heq),
            List.find?_cons_of_neg _ (by simpa using heq), ih]
  cases v with
  | some n =>
    simp only [fsSet]
    rw [fsGet, List.find?_cons_of_neg _ (by simpa using fun hh : p = q => h hh.symm)]
    rw [hfilter fs]
    rfl
  | none =>
    rw [fsGet, fsSet, hfilter fs]
    rfl

/-! ## State preservation through the strategy chain -/

theorem method1_preserves (w : World) (r lf : String) (s : SessionState) :
    (method1 w r lf s).2.stats = s.stats ∧
      (method1 w r lf s).2.extracted_files = s.extracted_files ∧
      (method1 w r lf s).2.logs = s.logs ∧
      (method1 w r lf s).2.has_root = s.has_root := by
  rw [method1]
  split <;> simp [adbPull]

theorem method2_preserves (w : World) (r lf fn : String) (b : Bool) (s : SessionState) :
    (method2 w r lf fn b s).2.stats = s.stats ∧
      (method2 w r lf fn b s).2.extracted_files = s.extracted_files ∧
      (method2 w r lf fn b s).2.logs = s.logs ∧
      (method2 w r lf fn b s).2.has_root = s.has_root := by
  rw [method2]
  split <;> simp [adbPull, shellRun]

theorem method3_preserves (w : World) (r lf : String) (b : Bool) (s : SessionState) :
    (method3 w r lf b s).2.stats = s.stats ∧
      (method3 w r lf b s).2.extracted_files = s.extracted_files ∧
      (method3 w r lf b s).2.logs = s.logs ∧
      (method3 w r lf b s).2.has_root = s.has_root := by
  rw [method3]
  split
  · simp only [shellRun]
    split
    · simp
    · split
      · split <;> simp
      · simp
  · simp

/-- The strategy chain never touches statistics, the extracted-path set, the
log, or the root flag. -/
theorem strategyChain_preserves (w : World) (r lf fn : String) (s : SessionState) :
    (strategyChain w r lf fn s).2.stats = s.stats ∧
      (strategyChain w r lf fn s).2.extracted_files = s.extracted_files ∧
      (strategyChain w r lf fn s).2.logs = s.logs ∧
      (strategyChain w r lf fn s).2.has_root = s.has_root := by
  rw [strategyChain]
  obtain ⟨h1s, h1e, h1l, h1r⟩ := method1_preserves w r lf s
  obtain ⟨h2s, h2e, h2l, h2r⟩ :=
    method2_preserves w r lf fn (method1 w r lf s).1 (method1 w r lf s).2
  obtain ⟨h3s, h3e, h3l, h3r⟩ := method3_preserves w r lf
    (method2 w r lf fn (method1 w r lf s).1 (method1 w r lf s).2).1
    (method2 w r lf fn (method1 w r lf s).1 (method1 w r lf s).2).2
  exact ⟨by rw [h3s, h2s, h1s], by rw [h3e, h2e, h1e], by rw [h3l, h2l, h1l],
    by rw [h3r, h2r, h1r]⟩

/-! ## Early returns of the extractor -/

/-- A device path already in the extracted set makes the call return `false`
with the state untouched, at any call level. -/
theorem runExtract_dedup (w : World) (remote lbd cat : String) (flatten : Bool)
    (fb : SessionState → Bool × SessionState) (s : SessionState)
    (h : remote ∈ s.extracted_files) :
    runExtract w remote lbd cat flatten fb s = (false, s) := by
  rw [runExtract, extractBody, if_pos h]

theorem extract_dedup (w : World) (remote lbd cat : String) (flatten : Bool)
    (s : SessionState) (h : remote ∈ s.extracted_files) :
    _extract_file_production w remote lbd cat flatten s = (false, s) := by
  rw [_extract_file_production]
  exact runExtract_dedup w remote lbd cat flatten _ s h

/-- An existing non-empty local target makes the call return `false` with
the state untouched (no stat fault assumed at the resume check). -/
theorem runExtract_resume (w : World) (remote lbd cat : String) (flatten : Bool)
    (fb : SessionState → Bool × SessionState) (s : SessionState)
    (hfault : w.statFault (localTarget remote lbd flatten) = false)
    (hfs : fsNonzero s.fs (localTarget remote lbd flatten) = true) :
    runExtract w remote lbd cat flatten fb s = (false, s) := by
  rw [runExtract, extractBody]
  by_cases hmem : remote ∈ s.extracted_files
  · rw [if_pos hmem]
  · rw [if_neg hmem, if_neg (by rw [hfault]; simp), if_pos hfs]

/-! ## The direct-transfer success path of the chain -/

/-- When the device path is outside the private namespaces and the pull
produces a non-empty file with status 0, the chain stops at Method 1 with
exactly one port call. -/
theorem strategyChain_direct (w : World) (r lf fn : String) (s : SessionState) (n : Nat)
    (hr1 : pyStartswith r "/data/data/" = false)
    (hr2 : pyStartswith r "/data/user/" = false)
    (hcode : w.pullCode r lf = 0)
    (hsize : w.pullSize r lf = some n) (hn : 0 < n) :
    strategyChain w r lf fn s = (true,
      { s with calls := s.calls ++ [.pull r lf], fs := fsSet s.fs lf (some n) }) := by
  have hm1 : method1 w r lf s =
      (true, { s with calls := s.calls ++ [.pull r lf], fs := fsSet s.fs lf (some n) }) := by
    rw [method1, if_pos (by rw [hr1, hr2]; rfl)]
    simp only [adbPull, hsize, hcode]
    simp [fsNonzero, fsGet_fsSet_self, hn]
  rw [strategyChain, hm1]
  simp [method2, method3]

/-! ## MB arithmetic -/

theorem bytesToMB_some (fs : FileSys) (p : String) (n : Nat) (h : fsGet fs p = some n) :
    bytesToMB fs p = (n : ℚ) / (1024 * 1024) := by rw [bytesToMB, h]

theorem bytesToMB_zero_iff (fs : FileSys) (p : String) (n : Nat) (h : fsGet fs p = some n) :
    bytesToMB fs p = 0 ↔ n = 0 := by
  rw [bytesToMB_some fs p n h]
  constructor
  · intro hz
    rcases div_eq_zero_iff.mp hz with h0 | hden
    · exact_mod_cast h0
    · norm_num at hden
  · intro hz; rw [hz]; norm_num

theorem mb_lt_of_bytes (n : Nat) (h : Config.MAX_FILE_SIZE_MB * 1024 * 1024 < n) :
    (Config.MAX_FILE_SIZE_MB : ℚ) < (n : ℚ) / (1024 * 1024) := by
  have hq : ((Config.MAX_FILE_SIZE_MB * 1024 * 1024 : Nat) : ℚ) < (n : ℚ) := by
    exact_mod_cast h
  rw [lt_div_iff₀ (by norm_num : (0:ℚ) < 1024 * 1024)]
  calc (Config.MAX_FILE_SIZE_MB : ℚ) * (1024 * 1024)
      = ((Config.MAX_FILE_SIZE_MB * 1024 * 1024 : Nat) : ℚ) := by push_cast; ring
    _ < n := hq

/-! ## Claim C8: the resume property -/

/-- **C8**  If a file already exists at the computed local target with
non-zero size, `extract` returns `false` without invoking any strategy: the
state is returned unchanged, so the port-call trace and every statistics
field are untouched. -/
theorem extract_resume_skip (w : World) (remote lbd cat : String) (flatten : Bool)
    (s : SessionState)
    (hfault : w.statFault (localTarget remote lbd flatten) = false)
    (hfs : fsNonzero s.fs (localTarget remote lbd flatten) = true) :
    _extract_file_production w remote lbd cat flatten s = (false, s) ∧
      (_extract_file_production w remote lbd cat flatten s).2.calls = s.calls ∧
      (_extract_file_production w remote lbd cat flatten s).2.stats = s.stats := by
  have h : _extract_file_production w remote lbd cat flatten s = (false, s) := by
    rw [_extract_file_production]
    exact runExtract_resume w remote lbd cat flatten _ s hfault hfs
  exact ⟨h, by rw [h], by rw [h]⟩

/-- A benign world for the witnesses: every pull succeeds producing a
2048-byte file; shell commands return status 1 with empty output; no
injected faults. -/
def wOk : World where
  pullCode := fun _ _ => 0
  pullSize := fun _ _ => some 2048
  shellOut := fun _ _ => ""
  shellCode := fun _ _ => 1
  mkdirFail := fun _ => false
  statFault := fun _ => false
  unlinkFault := fun _ => false

/-- A fresh session state for the witnesses. -/
def sEmpty : SessionState where
  stats := {}
  extracted_files := []
  has_root := false
  temp_counter := 0
  fs := []
  calls := []
  logs := 0

/-- A session that already holds a 7-byte file at the flattened target of
`/sdcard/DCIM/img1.jpg` under `base`. -/
def sResume : SessionState :=
  { sEmpty with fs := [(localTarget "/sdcard/DCIM/img1.jpg" "base" true, 7)] }

theorem extract_resume_skip_witness :
    wOk.statFault (localTarget "/sdcard/DCIM/img1.jpg" "base" true) = false ∧
      fsNonzero sResume.fs (localTarget "/sdcard/DCIM/img1.jpg" "base" true) = true ∧
      _extract_file_production wOk "/sdcard/DCIM/img1.jpg" "base" "media" true sResume =
        (false, sResume) :=
  ⟨rfl, by decide,
    (extract_resume_skip wOk "/sdcard/DCIM/img1.jpg" "base" "media" true sResume
      rfl (by decide)).1⟩

/-! ## Claim C1: total boolean result and fault accounting -/

/-- **C1**  `_extract_file_production` always returns a boolean and never
propagates a fault to the caller: when the body completes it returns the
body's boolean result unchanged, and when the body stops with an uncaught
fault (`.error`), the call returns `false`, the extraction-error counter is
incremented by exactly one, and a log line is emitted exactly when fewer
than 10 extraction errors have occurred (the error-spam throttle, with
`VERBOSE` on). -/
theorem extract_fault_handling (w : World) (remote lbd cat : String) (flatten : Bool)
    (s : SessionState) :
    (∀ r, extractBody w remote lbd cat flatten
        (theFallback w remote lbd cat flatten) s = .ok r →
      _extract_file_production w remote lbd cat flatten s = r) ∧
      (∀ sf, extractBody w remote lbd cat flatten
          (theFallback w remote lbd cat flatten) s = .error sf →
        _extract_file_production w remote lbd cat flatten s =
          (false, { sf with
            stats := { sf.stats with extraction_errors := sf.stats.extraction_errors + 1 },
            logs := if sf.stats.extraction_errors + 1 < 10 then sf.logs + 1 else sf.logs })) := by
  constructor
  · intro r h
    rw [_extract_file_production, runExtract, h]
  · intro sf h
    rw [_extract_file_production, runExtract, h]
    by_cases hc : sf.stats.extraction_errors + 1 < 10
    · simp [handleExtractionError, Config.VERBOSE, hc]
    · simp [handleExtractionError, Config.VERBOSE, hc]

/-- A world whose stat at the resume check faults (an OS race between
`exists` and `stat`). -/
def wFault : World := { wOk with statFault := fun _ => true }

/-- A session holding an empty file at the flattened target of
`/sdcard/x.txt` under `base`, so the resume check calls `stat`. -/
def sFault : SessionState :=
  { sEmpty with fs := [(localTarget "/sdcard/x.txt" "base" true, 0)] }

theorem extract_fault_handling_witness :
    extractBody wFault "/sdcard/x.txt" "base" "media" true
        (theFallback wFault "/sdcard/x.txt" "base" "media" true) sFault = .error sFault ∧
      _extract_file_production wFault "/sdcard/x.txt" "base" "media" true sFault =
        (false, { sFault with
          stats := { sFault.stats with extraction_errors := 1 }, logs := 1 }) :=
  ⟨rfl,
    (extract_fault_handling wFault "/sdcard/x.txt" "base" "media" true sFault).2 sFault rfl⟩

/-! ## Claim C7: the oversized outcome -/

/-- General run lemma for the oversized path: an unrestricted path whose
pull succeeds with more than `MAX_FILE_SIZE_MB` MiB is deleted, the call
returns `false`, a log line is emitted, and the statistics are untouched. -/
theorem oversizedRun (w : World) (remote lbd cat : String) (s : SessionState) (n : Nat)
    (hmem : remote ∉ s.extracted_files)
    (hfs : fsGet s.fs (localTarget remote lbd true) = none)
    (hmk : w.mkdirFail (pyDirname (localTarget remote lbd true)) = false)
    (hr1 : pyStartswith remote "/data/data/" = false)
    (hr2 : pyStartswith remote "/data/user/" = false)
    (hcode : w.pullCode remote (localTarget remote lbd true) = 0)
    (hsize : w.pullSize remote (localTarget remote lbd true) = some n)
    (hbig : Config.MAX_FILE_SIZE_MB * 1024 * 1024 < n)
    (hunlink : w.unlinkFault (localTarget remote lbd true) = false) :
    (_extract_file_production w remote lbd cat true s).1 = false ∧
      (_extract_file_production w remote lbd cat true s).2.stats = s.stats ∧
      fsGet (_extract_file_production w remote lbd cat true s).2.fs
        (localTarget remote lbd true) = none ∧
      (_extract_file_production w remote lbd cat true s).2.logs = s.logs + 1 := by
  have hM : Config.MAX_FILE_SIZE_MB = 500 := rfl
  have hn : 0 < n := by omega
  have hchain := strategyChain_direct w remote (localTarget remote lbd true)
    (pyBasename remote) s n hr1 hr2 hcode hsize hn
  have hget : fsGet (fsSet s.fs (localTarget remote lbd true) (some n))
      (localTarget remote lbd true) = some n := fsGet_fsSet_self _ _ _
  have hrun : _extract_file_production w remote lbd cat true s =
      (false, { s with
        calls := s.calls ++ [.pull remote (localTarget remote lbd true)],
        fs := fsSet (fsSet s.fs (localTarget remote lbd true) (some n))
          (localTarget remote lbd true) none,
        logs := s.logs + 1 }) := by
    rw [_extract_file_production, runExtract, extractBody, if_neg hmem,
      if_neg (by rw [hfs]; simp), if_neg (by rw [fsNonzero, hfs]; simp),
      if_neg (by rw [hmk]; simp), hchain]
    have hmb0 : ¬ bytesToMB (fsSet s.fs (localTarget remote lbd true) (some n))
        (localTarget remote lbd true) = 0 := by
      rw [bytesToMB_zero_iff _ _ n hget]
      omega
    have hmbBig : (Config.MAX_FILE_SIZE_MB : ℚ) <
        bytesToMB (fsSet s.fs (localTarget remote lbd true) (some n))
          (localTarget remote lbd true) := by
      rw [bytesToMB_some _ _ n hget]
      exact mb_lt_of_bytes n hbig
    have hcond : (decide (0 < Config.MAX_FILE_SIZE_MB) &&
        decide ((Config.MAX_FILE_SIZE_MB : ℚ) <
          bytesToMB (fsSet s.fs (localTarget remote lbd true) (some n))
            (localTarget remote lbd true))) = true := by
      rw [Bool.and_eq_true, decide_eq_true_eq, decide_eq_true_eq]
      exact ⟨by rw [hM]; norm_num, hmbBig⟩
    simp only [hget]
    rw [if_pos (by simp), if_neg hmb0, if_pos hcond, if_neg (by rw [hunlink]; simp)]
  refine ⟨by rw [hrun], by rw [hrun], ?_, by rw [hrun]⟩
  rw [hrun]
  show fsGet (fsSet (fsSet s.fs (localTarget remote lbd true) (some n))
    (localTarget remote lbd true) none) (localTarget remote lbd true) = none
  exact fsGet_fsSet_self _ _ _

/-- **C7 (amended)**  When a successfully transferred file exceeds the
configured size ceiling (500 MiB), it is deleted from disk, `extract`
returns `false`, and a log line is emitted; no statistics field changes at
all — in particular the failed-file counter is not incremented, but the
oversized outcome is also *not* counted separately anywhere in the
statistics aggregate (it is only logged). -/
theorem extract_oversized (w : World) (remote lbd cat : String) (s : SessionState) (n : Nat)
    (hmem : remote ∉ s.extracted_files)
    (hfs : fsGet s.fs (localTarget remote lbd true) = none)
    (hmk : w.mkdirFail (pyDirname (localTarget remote lbd true)) = false)
    (hr1 : pyStartswith remote "/data/data/" = false)
    (hr2 : pyStartswith remote "/data/user/" = false)
    (hcode : w.pullCode remote (localTarget remote lbd true) = 0)
    (hsize : w.pullSize remote (localTarget remote lbd true) = some n)
    (hbig : Config.MAX_FILE_SIZE_MB * 1024 * 1024 < n)
    (hunlink : w.unlinkFault (localTarget remote lbd true) = false) :
    (_extract_file_production w remote lbd cat true s).1 = false ∧
      (_extract_file_production w remote lbd cat true s).2.stats = s.stats ∧
      fsGet (_extract_file_production w remote lbd cat true s).2.fs
        (localTarget remote lbd true) = none ∧
      (_extract_file_production w remote lbd cat true s).2.logs = s.logs + 1 :=
  oversizedRun w remote lbd cat s n hmem hfs hmk hr1 hr2 hcode hsize hbig hunlink

/-- World for the C7 scenario: pulls succeed but produce a 600 MiB file. -/
def wBig : World := { wOk with pullSize := fun _ _ => some (600 * 1024 * 1024) }

/-- **C7 counterexample**  The oversized outcome is *not* counted separately
in the statistics: on a concrete oversized pull the call returns `false`,
the file is deleted, and the resulting statistics aggregate equals the
initial one field for field — no counter distinguishes the oversized case. -/
theorem extract_oversized_not_counted :
    (_extract_file_production wBig "/sdcard/big.bin" "base" "media" true sEmpty).1 = false ∧
      fsGet (_extract_file_production wBig "/sdcard/big.bin" "base" "media" true sEmpty).2.fs
        (localTarget "/sdcard/big.bin" "base" true) = none ∧
      (_extract_file_production wBig "/sdcard/big.bin" "base" "media" true sEmpty).2.stats =
        sEmpty.stats := by
  have h := oversizedRun wBig "/sdcard/big.bin" "base" "media" sEmpty (600 * 1024 * 1024)
    (by decide) (by decide) rfl (by decide) (by decide) rfl rfl (by decide) rfl
  exact ⟨h.1, h.2.2.1, h.2.1⟩

theorem extract_oversized_witness :
    ("/sdcard/big.bin" ∉ sEmpty.extracted_files) ∧
      Config.MAX_FILE_SIZE_MB * 1024 * 1024 < 600 * 1024 * 1024 ∧
      (_extract_file_production wBig "/sdcard/big.bin" "base" "media" true sEmpty).1 = false ∧
      (_extract_file_production wBig "/sdcard/big.bin" "base" "media" true sEmpty).2.logs =
        sEmpty.logs + 1 :=
  ⟨by decide, by decide,
    (extract_oversized wBig "/sdcard/big.bin" "base" "media" sEmpty (600 * 1024 * 1024)
      (by decide) (by decide) rfl (by decide) (by decide) rfl rfl (by decide) rfl).1,
    (extract_oversized wBig "/sdcard/big.bin" "base" "media" sEmpty (600 * 1024 * 1024)
      (by decide) (by decide) rfl (by decide) (by decide) rfl rfl (by decide) rfl).2.2.2⟩

/-! ## What a call that returns `true` guarantees -/

/-- Any call level that returns `true` has recorded the device path in the
extracted set (provided the fallback, when it returns `true`, does too). -/
theorem runExtract_true_mem (w : World) (remote lbd cat : String) (flatten : Bool)
    (fb : SessionState → Bool × SessionState) (s s' : SessionState)
    (hfb : ∀ t t', fb t = (true, t') → remote ∈ t'.extracted_files)
    (h : runExtract w remote lbd cat flatten fb s = (true, s')) :
    remote ∈ s'.extracted_files := by
  rw [runExtract, extractBody] at h
  by_cases hmem : remote ∈ s.extracted_files
  · rw [if_pos hmem] at h
    simp at h
  · rw [if_neg hmem] at h
    by_cases hsf : ((fsGet s.fs (localTarget remote lbd flatten)).isSome &&
        w.statFault (localTarget remote lbd flatten)) = true
    · rw [if_pos hsf] at h
      simp [handleExtractionError] at h
    · rw [if_neg hsf] at h
      by_cases hnz : fsNonzero s.fs (localTarget remote lbd flatten) = true
      · rw [if_pos hnz] at h
        simp at h
      · rw [if_neg hnz] at h
        by_cases hmk : w.mkdirFail (pyDirname (localTarget remote lbd flatten)) = true
        · rw [if_pos hmk] at h
          by_cases hfl : flatten = true
          · rw [if_pos hfl] at h
            simp at h
          · rw [if_neg hfl] at h
            exact hfb _ _ (by simpa using h)
        · rw [if_neg hmk] at h
          rcases hSC : strategyChain w remote
              (localTarget remote lbd flatten) (pyBasename remote) s with ⟨b2, s2⟩
          rw [hSC] at h
          dsimp only at h
          by_cases hok : (b2 && (fsGet s2.fs (localTarget remote lbd flatten)).isSome) = true
          · rw [if_pos hok] at h
            by_cases h0 : bytesToMB s2.fs (localTarget remote lbd flatten) = 0
            · rw [if_pos h0] at h
              by_cases hul : w.unlinkFault (localTarget remote lbd flatten) = true
              · rw [if_pos hul] at h
                simp [handleExtractionError] at h
              · rw [if_neg hul] at h
                simp at h
            · rw [if_neg h0] at h
              by_cases hbig : (decide (0 < Config.MAX_FILE_SIZE_MB) &&
                  decide ((Config.MAX_FILE_SIZE_MB : ℚ) <
                    bytesToMB s2.fs (localTarget remote lbd flatten))) = true
              · rw [if_pos hbig] at h
                by_cases hul : w.unlinkFault (localTarget remote lbd flatten) = true
                · rw [if_pos hul] at h
                  simp [handleExtractionError] at h
                · rw [if_neg hul] at h
                  simp at h
              · rw [if_neg hbig] at h
                dsimp only at h
                have h2 := congrArg Prod.snd h
                dsimp only at h2
                rw [← h2]
                split
                · exact List.mem_cons_self _ _
                · exact List.mem_cons_self _ _
          · rw [if_neg hok] at h
            simp at h

/-- A `flatten = true` call level that returns `true` leaves a non-empty
file at the flattened local target. -/
theorem runExtract_true_fs (w : World) (remote lbd cat : String)
    (fb : SessionState → Bool × SessionState) (s s' : SessionState)
    (h : runExtract w remote lbd cat true fb s = (true, s')) :
    fsNonzero s'.fs (localTarget remote lbd true) = true := by
  rw [runExtract, extractBody] at h
  by_cases hmem : remote ∈ s.extracted_files
  · rw [if_pos hmem] at h
    simp at h
  · rw [if_neg hmem] at h
    by_cases hsf : ((fsGet s.fs (localTarget remote lbd true)).isSome &&
        w.statFault (localTarget remote lbd true)) = true
    · rw [if_pos hsf] at h
      simp [handleExtractionError] at h
    · rw [if_neg hsf] at h
      by_cases hnz : fsNonzero s.fs (localTarget remote lbd true) = true
      · rw [if_pos hnz] at h
        simp at h
      · rw [if_neg hnz] at h
        by_cases hmk : w.mkdirFail (pyDirname (localTarget remote lbd true)) = true
        · rw [if_pos hmk, if_pos rfl] at h
          simp at h
        · rw [if_neg hmk] at h
          rcases hSC : strategyChain w remote
              (localTarget remote lbd true) (pyBasename remote) s with ⟨b2, s2⟩
          rw [hSC] at h
          dsimp only at h
          by_cases hok : (b2 && (fsGet s2.fs (localTarget remote lbd true)).isSome) = true
          · rw [if_pos hok] at h
            by_cases h0 : bytesToMB s2.fs (localTarget remote lbd true) = 0
            · rw [if_pos h0] at h
              by_cases hul : w.unlinkFault (localTarget remote lbd true) = true
              · rw [if_pos hul] at h
                simp [handleExtractionError] at h
              · rw [if_neg hul] at h
                simp at h
            · rw [if_neg h0] at h
              by_cases hbig : (decide (0 < Config.MAX_FILE_SIZE_MB) &&
                  decide ((Config.MAX_FILE_SIZE_MB : ℚ) <
                    bytesToMB s2.fs (localTarget remote lbd true))) = true
              · rw [if_pos hbig] at h
                by_cases hul : w.unlinkFault (localTarget remote lbd true) = true
                · rw [if_pos hul] at h
                  simp [handleExtractionError] at h
                · rw [if_neg hul] at h
                  simp at h
              · rw [if_neg hbig] at h
                dsimp only at h
                have h2 := congrArg Prod.snd h
                dsimp only at h2
                have hfs_eq : s'.fs = s2.fs := by
                  rw [← h2]
                  split <;> rfl
                obtain ⟨n, hn⟩ := Option.isSome_iff_exists.mp ((Bool.and_eq_true _ _).mp hok).2
                have hn0 : n ≠ 0 := by
                  intro h00
                  exact h0 ((bytesToMB_zero_iff s2.fs _ n hn).mpr h00)
                rw [hfs_eq]
                simp only [fsNonzero, hn]
                simpa using Nat.pos_of_ne_zero hn0
          · rw [if_neg hok] at h
            simp at h

theorem extract_true_mem (w : World) (remote lbd cat : String) (flatten : Bool)
    (s s' : SessionState)
    (h : _extract_file_production w remote lbd cat flatten s = (true, s')) :
    remote ∈ s'.extracted_files := by
  rw [_extract_file_production] at h
  refine runExtract_true_mem w remote lbd cat flatten _ s s' ?_ h
  intro t t' ht
  rw [theFallback] at ht
  split at ht
  · simp at ht
  · exact runExtract_true_mem w remote lbd cat true _ t t'
      (fun u u' hu => by simp at hu) ht

theorem extract_true_fs (w : World) (remote lbd cat : String) (s s' : SessionState)
    (h : _extract_file_production w remote lbd cat true s = (true, s')) :
    fsNonzero s'.fs (localTarget remote lbd true) = true := by
  rw [_extract_file_production] at h
  exact runExtract_true_fs w remote lbd cat _ s s' h

/-! ## The extracted-path set only grows -/

theorem runExtract_mono (w : World) (remote lbd cat : String) (flatten : Bool)
    (fb : SessionState → Bool × SessionState) (s : SessionState)
    (hfb : ∀ t, t.extracted_files ⊆ ((fb t).2).extracted_files) :
    s.extracted_files ⊆ ((runExtract w remote lbd cat flatten fb s).2).extracted_files := by
  rw [runExtract, extractBody]
  by_cases hmem : remote ∈ s.extracted_files
  · rw [if_pos hmem]
    exact fun a ha => ha
  · rw [if_neg hmem]
    by_cases hsf : ((fsGet s.fs (localTarget remote lbd flatten)).isSome &&
        w.statFault (localTarget remote lbd flatten)) = true
    · rw [if_pos hsf]
      simp only [handleExtractionError]
      split <;> exact fun a ha => ha
    · rw [if_neg hsf]
      by_cases hnz : fsNonzero s.fs (localTarget remote lbd flatten) = true
      · rw [if_pos hnz]
        exact fun a ha => ha
      · rw [if_neg hnz]
        by_cases hmk : w.mkdirFail (pyDirname (localTarget remote lbd flatten)) = true
        · rw [if_pos hmk]
          by_cases hfl : flatten = true
          · rw [if_pos hfl]
            exact fun a ha => ha
          · rw [if_neg hfl]
            dsimp only
            exact hfb
              { s with stats := { s.stats with path_errors := s.stats.path_errors + 1 } }
        · rw [if_neg hmk]
          rcases hSC : strategyChain w remote
              (localTarget remote lbd flatten) (pyBasename remote) s with ⟨b2, s2⟩
          have hpres : s2.extracted_files = s.extracted_files := by
            have := (strategyChain_preserves w remote
              (localTarget remote lbd flatten) (pyBasename remote) s).2.1
            rw [hSC] at this
            exact this
          dsimp only
          by_cases hok : (b2 && (fsGet s2.fs (localTarget remote lbd flatten)).isSome) = true
          · rw [if_pos hok]
            by_cases h0 : bytesToMB s2.fs (localTarget remote lbd flatten) = 0
            · rw [if_pos h0]
              by_cases hul : w.unlinkFault (localTarget remote lbd flatten) = true
              · rw [if_pos hul]
                simp only [handleExtractionError]
                split <;> (rw [← hpres]; exact fun a ha => ha)
              · rw [if_neg hul]
                rw [← hpres]
                exact fun a ha => ha
            · rw [if_neg h0]
              by_cases hbig : (decide (0 < Config.MAX_FILE_SIZE_MB) &&
                  decide ((Config.MAX_FILE_SIZE_MB : ℚ) <
                    bytesToMB s2.fs (localTarget remote lbd flatten))) = true
              · rw [if_pos hbig]
                by_cases hul : w.unlinkFault (localTarget remote lbd flatten) = true
                · rw [if_pos hul]
                  simp only [handleExtractionError]
                  split <;> (rw [← hpres]; exact fun a ha => ha)
                · rw [if_neg hul]
                  rw [← hpres]
                  exact fun a ha => ha
              · rw [if_neg hbig]
                dsimp only
                rw [← hpres]
                split <;> exact fun a ha => List.mem_cons_of_mem _ ha
          · rw [if_neg hok]
            rw [← hpres]
            exact fun a ha => ha

theorem extract_mono (w : World) (remote lbd cat : String) (flatten : Bool)
    (s : SessionState) :
    s.extracted_files ⊆
      ((_extract_file_production w remote lbd cat flatten s).2).extracted_files := by
  rw [_extract_file_production]
  refine runExtract_mono w remote lbd cat flatten _ s ?_
  intro t
  rw [theFallback]
  split
  · exact fun a ha => ha
  · exact runExtract_mono w remote lbd cat true _ t (fun u a ha => ha)

/-- A sequence of later extraction requests: world, device path, base
directory, category, flatten flag. -/
def runBatch (reqs : List (World × String × String × String × Bool))
    (s : SessionState) : SessionState :=
  reqs.foldl
    (fun t r => (_extract_file_production r.1 r.2.1 r.2.2.1 r.2.2.2.1 r.2.2.2.2 t).2) s

theorem runBatch_mono (reqs : List (World × String × String × String × Bool))
    (s : SessionState) :
    s.extracted_files ⊆ (runBatch reqs s).extracted_files := by
  induction reqs generalizing s with
  | nil => exact fun a ha => ha
  | cons r rest ih =>
    intro a ha
    exact ih _ (extract_mono r.1 r.2.1 r.2.2.1 r.2.2.2.1 r.2.2.2.2 s ha)

/-! ## The direct-transfer success run -/

theorem mb_le_of_bytes (n : Nat) (h : n ≤ Config.MAX_FILE_SIZE_MB * 1024 * 1024) :
    ¬ ((Config.MAX_FILE_SIZE_MB : ℚ) < (n : ℚ) / (1024 * 1024)) := by
  rw [not_lt, div_le_iff₀ (by norm_num : (0:ℚ) < 1024 * 1024)]
  calc (n:ℚ) ≤ ((Config.MAX_FILE_SIZE_MB * 1024 * 1024 : Nat) : ℚ) := by exact_mod_cast h
    _ = (Config.MAX_FILE_SIZE_MB : ℚ) * (1024 * 1024) := by push_cast; ring

/-- General run lemma for the direct-transfer success path: with an
unrestricted path, a clean pull of a non-empty file within the size
ceiling, no prior extraction and no existing target, the call returns
`true`. -/
theorem successRun (w : World) (remote lbd cat : String) (s : SessionState) (n : Nat)
    (hmem : remote ∉ s.extracted_files)
    (hfs : fsGet s.fs (localTarget remote lbd true) = none)
    (hmk : w.mkdirFail (pyDirname (localTarget remote lbd true)) = false)
    (hr1 : pyStartswith remote "/data/data/" = false)
    (hr2 : pyStartswith remote "/data/user/" = false)
    (hcode : w.pullCode remote (localTarget remote lbd true) = 0)
    (hsize : w.pullSize remote (localTarget remote lbd true) = some n)
    (hn : 0 < n)
    (hsmall : n ≤ Config.MAX_FILE_SIZE_MB * 1024 * 1024) :
    (_extract_file_production w remote lbd cat true s).1 = true := by
  have hchain := strategyChain_direct w remote (localTarget remote lbd true)
    (pyBasename remote) s n hr1 hr2 hcode hsize hn
  have hget : fsGet (fsSet s.fs (localTarget remote lbd true) (some n))
      (localTarget remote lbd true) = some n := fsGet_fsSet_self _ _ _
  rw [_extract_file_production, runExtract, extractBody, if_neg hmem,
    if_neg (by rw [hfs]; simp), if_neg (by rw [fsNonzero, hfs]; simp),
    if_neg (by rw [hmk]; simp), hchain]
  have hmb0 : ¬ bytesToMB (fsSet s.fs (localTarget remote lbd true) (some n))
      (localTarget remote lbd true) = 0 := by
    rw [bytesToMB_zero_iff _ _ n hget]
    omega
  have hbig : ¬ ((decide (0 < Config.MAX_FILE_SIZE_MB) &&
      decide ((Config.MAX_FILE_SIZE_MB : ℚ) <
        bytesToMB (fsSet s.fs (localTarget remote lbd true) (some n))
          (localTarget remote lbd true))) = true) := by
    rw [Bool.and_eq_true, decide_eq_true_eq, decide_eq_true_eq]
    rintro ⟨-, hlt⟩
    rw [bytesToMB_some _ _ n hget] at hlt
    exact mb_le_of_bytes n hsmall hlt
  simp only [hget]
  rw [if_pos (by simp), if_neg hmb0, if_neg hbig]

/-! ## Claim C2: the dedup property of double extraction -/

/-- **C2 (amended)**  `extract` returns `true` at most once per device path
and session: if a call for `remote` returned `true`, any later call for the
same `remote` (any world, base directory, category or flatten flag) returns
`false` and leaves the entire session state — statistics included —
unchanged.  (After a *failed* first call, however, a second call re-attempts
the extraction and may update statistics; see the counterexample.) -/
theorem extract_dedup_after_success (w w' : World) (remote lbd lbd' cat cat' : String)
    (flatten flatten' : Bool) (s s₁ : SessionState)
    (h : _extract_file_production w remote lbd cat flatten s = (true, s₁)) :
    _extract_file_production w' remote lbd' cat' flatten' s₁ = (false, s₁) :=
  extract_dedup w' remote lbd' cat' flatten' s₁
    (extract_true_mem w remote lbd cat flatten s s₁ h)

/-- A world in which every strategy fails: pulls return status 1 and
produce no file, and shell output is unparsable. -/
def wNoGo : World := { wOk with pullCode := fun _ _ => 1, pullSize := fun _ _ => none }

/-- **C2 counterexample**  Calling `extract` twice with the same device
path is *not* in general a no-op on statistics: when the first call fails,
the second call re-attempts the extraction and increments the failed-file
counter again, so the second call does change a statistics field. -/
theorem extract_repeat_changes_stats :
    (_extract_file_production wNoGo "/sdcard/a.bin" "base" "media" true sEmpty).1 = false ∧
      (_extract_file_production wNoGo "/sdcard/a.bin" "base" "media" true
        (_extract_file_production wNoGo "/sdcard/a.bin" "base" "media" true sEmpty).2).1 =
        false ∧
      (_extract_file_production wNoGo "/sdcard/a.bin" "base" "media" true
        sEmpty).2.stats.failed_files = 1 ∧
      (_extract_file_production wNoGo "/sdcard/a.bin" "base" "media" true
        (_extract_file_production wNoGo "/sdcard/a.bin" "base" "media" true
          sEmpty).2).2.stats.failed_files = 2 :=
  ⟨by decide, by decide, by decide, by decide⟩

theorem extract_dedup_after_success_witness :
    _extract_file_production wOk "/sdcard/DCIM/img1.jpg" "base" "media" true sEmpty =
      (true,
        (_extract_file_production wOk "/sdcard/DCIM/img1.jpg" "base" "media" true sEmpty).2) ∧
      _extract_file_production wNoGo "/sdcard/DCIM/img1.jpg" "base2" "documents" false
          (_extract_file_production wOk "/sdcard/DCIM/img1.jpg" "base" "media" true sEmpty).2 =
        (false,
          (_extract_file_production wOk "/sdcard/DCIM/img1.jpg" "base" "media" true
            sEmpty).2) := by
  have h1 : (_extract_file_production wOk "/sdcard/DCIM/img1.jpg" "base" "media" true
      sEmpty).1 = true :=
    successRun wOk "/sdcard/DCIM/img1.jpg" "base" "media" sEmpty 2048
      (by decide) rfl rfl (by decide) (by decide) rfl rfl (by decide) (by decide)
  have heq : _extract_file_production wOk "/sdcard/DCIM/img1.jpg" "base" "media" true sEmpty =
      (true,
        (_extract_file_production wOk "/sdcard/DCIM/img1.jpg" "base" "media" true
          sEmpty).2) := by
    have h2 : _extract_file_production wOk "/sdcard/DCIM/img1.jpg" "base" "media" true sEmpty =
        ((_extract_file_production wOk "/sdcard/DCIM/img1.jpg" "base" "media" true sEmpty).1,
          (_extract_file_production wOk "/sdcard/DCIM/img1.jpg" "base" "media" true
            sEmpty).2) := rfl
    rw [h1] at h2
    exact h2
  exact ⟨heq, extract_dedup_after_success wOk wNoGo "/sdcard/DCIM/img1.jpg" "base" "base2"
    "media" "documents" true false sEmpty _ heq⟩

/-! ## Claim C9: the session invariant -/

/-- **C9**  Once a call to `extract` for device path `p` has returned
`true`, every later call for `p` in the same session — after any sequence
of further extraction requests — returns `false`: the path was recorded in
the extracted set, the set only grows, and the dedup check short-circuits
(the state is returned untouched). -/
theorem extract_session_invariant (w w' : World) (remote lbd lbd' cat cat' : String)
    (flatten flatten' : Bool) (s s₁ : SessionState)
    (reqs : List (World × String × String × String × Bool))
    (h : _extract_file_production w remote lbd cat flatten s = (true, s₁)) :
    _extract_file_production w' remote lbd' cat' flatten' (runBatch reqs s₁) =
      (false, runBatch reqs s₁) :=
  extract_dedup w' remote lbd' cat' flatten' _
    (runBatch_mono reqs s₁ (extract_true_mem w remote lbd cat flatten s s₁ h))

theorem extract_session_invariant_witness :
    _extract_file_production wOk "/sdcard/DCIM/img1.jpg" "base" "media" true sEmpty =
      (true,
        (_extract_file_production wOk "/sdcard/DCIM/img1.jpg" "base" "media" true sEmpty).2) ∧
      _extract_file_production wNoGo "/sdcard/DCIM/img1.jpg" "base2" "documents" false
          (runBatch [(wNoGo, "/data/data/x/y.db", "base", "app_data", true)]
            (_extract_file_production wOk "/sdcard/DCIM/img1.jpg" "base" "media" true
              sEmpty).2) =
        (false, runBatch [(wNoGo, "/data/data/x/y.db", "base", "app_data", true)]
          (_extract_file_production wOk "/sdcard/DCIM/img1.jpg" "base" "media" true
            sEmpty).2) := by
  have h1 : (_extract_file_production wOk "/sdcard/DCIM/img1.jpg" "base" "media" true
      sEmpty).1 = true :=
    successRun wOk "/sdcard/DCIM/img1.jpg" "base" "media" sEmpty 2048
      (by decide) rfl rfl (by decide) (by decide) rfl rfl (by decide) (by decide)
  have heq : _extract_file_production wOk "/sdcard/DCIM/img1.jpg" "base" "media" true sEmpty =
      (true,
        (_extract_file_production wOk "/sdcard/DCIM/img1.jpg" "base" "media" true
          sEmpty).2) := by
    have h2 : _extract_file_production wOk "/sdcard/DCIM/img1.jpg" "base" "media" true sEmpty =
        ((_extract_file_production wOk "/sdcard/DCIM/img1.jpg" "base" "media" true sEmpty).1,
          (_extract_file_production wOk "/sdcard/DCIM/img1.jpg" "base" "media" true
            sEmpty).2) := rfl
    rw [h1] at h2
    exact h2
  exact ⟨heq, extract_session_invariant wOk wNoGo "/sdcard/DCIM/img1.jpg" "base" "base2"
    "media" "documents" true false sEmpty _ _ heq⟩

/-! ## Claim C10: colliding local targets -/

/-- **C10**  If two device paths map to the same local target (for example
two directories holding files with the same sanitized basename, extracted
with `flatten = true`), then after a successful extract of `p`, a later
extract of `q` returns `false` with the state unchanged: either the dedup
check fires, or the existence check finds the colliding target already on
disk, so `q`'s content is never pulled, no device command is issued and no
error counter records the skip. -/
theorem extract_target_collision (w1 w2 : World) (p q lbd1 lbd2 cat1 cat2 : String)
    (f2 : Bool) (s s₁ : SessionState)
    (h1 : _extract_file_production w1 p lbd1 cat1 true s = (true, s₁))
    (hcoll : localTarget q lbd2 f2 = localTarget p lbd1 true)
    (hfault : w2.statFault (localTarget q lbd2 f2) = false) :
    _extract_file_production w2 q lbd2 cat2 f2 s₁ = (false, s₁) := by
  by_cases hq : q ∈ s₁.extracted_files
  · exact extract_dedup w2 q lbd2 cat2 f2 s₁ hq
  · have hfs : fsNonzero s₁.fs (localTarget q lbd2 f2) = true := by
      rw [hcoll]
      exact extract_true_fs w1 p lbd1 cat1 s s₁ h1
    rw [_extract_file_production]
    exact runExtract_resume w2 q lbd2 cat2 f2 _ s₁ hfault hfs

theorem extract_target_collision_witness :
    _extract_file_production wOk "/a/file.txt" "base" "documents" true sEmpty =
      (true,
        (_extract_file_production wOk "/a/file.txt" "base" "documents" true sEmpty).2) ∧
      localTarget "/b/file.txt" "base" true = localTarget "/a/file.txt" "base" true ∧
      ("/b/file.txt" : String) ≠ "/a/file.txt" ∧
      _extract_file_production wOk "/b/file.txt" "base" "documents" true
          (_extract_file_production wOk "/a/file.txt" "base" "documents" true sEmpty).2 =
        (false,
          (_extract_file_production wOk "/a/file.txt" "base" "documents" true sEmpty).2) := by
  have h1 : (_extract_file_production wOk "/a/file.txt" "base" "documents" true
      sEmpty).1 = true :=
    successRun wOk "/a/file.txt" "base" "documents" sEmpty 2048
      (by decide) rfl rfl (by decide) (by decide) rfl rfl (by decide) (by decide)
  have heq : _extract_file_production wOk "/a/file.txt" "base" "documents" true sEmpty =
      (true,
        (_extract_file_production wOk "/a/file.txt" "base" "documents" true sEmpty).2) := by
    have h2 : _extract_file_production wOk "/a/file.txt" "base" "documents" true sEmpty =
        ((_extract_file_production wOk "/a/file.txt" "base" "documents" true sEmpty).1,
          (_extract_file_production wOk "/a/file.txt" "base" "documents" true
            sEmpty).2) := rfl
    rw [h1] at h2
    exact h2
  exact ⟨heq, by decide, by decide,
    extract_target_collision wOk wOk "/a/file.txt" "/b/file.txt" "base" "base"
      "documents" "documents" true sEmpty _ heq (by decide) rfl⟩

/-! ## Discriminating the device commands -/

theorem data_get1_append (pre s : String) (h : 1 < pre.data.length) :
    (pre ++ s).data[1]? = pre.data[1]? := by
  rw [String.data_append]
  exact List.getElem?_append_left h

theorem data_len_append_ge (pre s : String) :
    pre.data.length ≤ (pre ++ s).data.length := by
  rw [String.data_append, List.length_append]
  omega

theorem catCmd_get1 (a : String) : (catCmd a).data[1]? = some 'a' := by
  have h1 : 1 < ("cat '" ++ a).data.length :=
    lt_of_lt_of_le (by decide) (data_len_append_ge "cat '" a)
  rw [catCmd, data_get1_append _ _ h1, data_get1_append _ _ (by decide)]
  decide

theorem statCmd_get1 (a : String) : (statCmd a).data[1]? = some 't' := by
  have h1 : 1 < ("stat -c %s '" ++ a).data.length :=
    lt_of_lt_of_le (by decide) (data_len_append_ge "stat -c %s '" a)
  rw [statCmd, data_get1_append _ _ h1, data_get1_append _ _ (by decide)]
  decide

theorem cpCmd_get1 (a tp : String) : (cpCmd a tp).data[1]? = some 'p' := by
  have h1 : 1 < ("cp '" ++ a).data.length :=
    lt_of_lt_of_le (by decide) (data_len_append_ge "cp '" a)
  have h2 : 1 < (("cp '" ++ a) ++ "' '").data.length :=
    lt_of_lt_of_le h1 (data_len_append_ge _ _)
  have h3 : 1 < ((("cp '" ++ a) ++ "' '") ++ tp).data.length :=
    lt_of_lt_of_le h2 (data_len_append_ge _ _)
  rw [cpCmd, data_get1_append _ _ h3, data_get1_append _ _ h2,
    data_get1_append _ _ h1, data_get1_append _ _ (by decide)]
  decide

theorem chmodCmd_get1 (tp : String) : (chmodCmd tp).data[1]? = some 'h' := by
  have h1 : 1 < ("chmod 644 '" ++ tp).data.length :=
    lt_of_lt_of_le (by decide) (data_len_append_ge "chmod 644 '" tp)
  rw [chmodCmd, data_get1_append _ _ h1, data_get1_append _ _ (by decide)]
  decide

theorem rmCmd_get1 (tp : String) : (rmCmd tp).data[1]? = some 'm' := by
  have h1 : 1 < ("rm '" ++ tp).data.length :=
    lt_of_lt_of_le (by decide) (data_len_append_ge "rm '" tp)
  rw [rmCmd, data_get1_append _ _ h1, data_get1_append _ _ (by decide)]
  decide

theorem catCmd_ne_cpCmd (a b tp : String) : catCmd a ≠ cpCmd b tp := by
  intro he
  have h := (catCmd_get1 a).symm.trans ((congrArg (fun t : String => t.data[1]?) he).trans
    (cpCmd_get1 b tp))
  exact absurd (Option.some.inj h) (by decide)

theorem catCmd_ne_chmodCmd (a tp : String) : catCmd a ≠ chmodCmd tp := by
  intro he
  have h := (catCmd_get1 a).symm.trans ((congrArg (fun t : String => t.data[1]?) he).trans
    (chmodCmd_get1 tp))
  exact absurd (Option.some.inj h) (by decide)

theorem catCmd_ne_rmCmd (a tp : String) : catCmd a ≠ rmCmd tp := by
  intro he
  have h := (catCmd_get1 a).symm.trans ((congrArg (fun t : String => t.data[1]?) he).trans
    (rmCmd_get1 tp))
  exact absurd (Option.some.inj h) (by decide)

theorem catCmd_ne_statCmd (a b : String) : catCmd a ≠ statCmd b := by
  intro he
  have h := (catCmd_get1 a).symm.trans ((congrArg (fun t : String => t.data[1]?) he).trans
    (statCmd_get1 b))
  exact absurd (Option.some.inj h) (by decide)

/-- A true `startswith` determines the indexed characters. -/
theorem listStartsWith_get (l p : List Char) (h : listStartsWith l p = true)
    (i : Nat) (hi : i < p.length) : l[i]? = p[i]? := by
  induction p generalizing l i with
  | nil => simp at hi
  | cons d pr ih =>
    cases l with
    | nil => simp [listStartsWith] at h
    | cons c lr =>
      rw [listStartsWith] at h
      obtain ⟨hcd, hrest⟩ := (Bool.and_eq_true _ _).mp h
      have hcd' : c = d := by simpa using hcd
      cases i with
      | zero => simp [hcd']
      | succ j => simpa using ih lr hrest j (by simpa using hi)

/-- A path in a private-app-storage namespace is never the staging path. -/
theorem restricted_ne_temp (r nm : String)
    (h : pyStartswith r "/data/data/" = true ∨ pyStartswith r "/data/user/" = true) :
    r ≠ "/sdcard/Download/" ++ nm := by
  intro he
  have h2 : r.data[1]? = some 's' := by
    rw [he, String.data_append, List.getElem?_append_left (by decide)]
    decide
  rcases h with h | h <;>
  · have h1 := listStartsWith_get r.data _ h 1 (by decide)
    rw [h2] at h1
    exact absurd (Option.some.inj h1) (by decide)

/-! ## The call trace of each strategy -/

theorem method1_temp (w : World) (r lf : String) (s : SessionState) :
    (method1 w r lf s).2.temp_counter = s.temp_counter := by
  rw [method1]
  split <;> simp [adbPull]

theorem method1_calls_spec (w : World) (r lf : String) (s : SessionState) :
    ∃ Δ, (method1 w r lf s).2.calls = s.calls ++ Δ ∧
      ∀ pc ∈ Δ, pc = PortCall.pull r lf ∧
        pyStartswith r "/data/data/" = false ∧ pyStartswith r "/data/user/" = false := by
  rw [method1]
  split
  next hcond =>
    rw [Bool.and_eq_true, Bool.not_eq_true', Bool.not_eq_true'] at hcond
    exact ⟨[PortCall.pull r lf], by simp [adbPull],
      fun pc hpc => ⟨by simpa using hpc, hcond.1, hcond.2⟩⟩
  next => exact ⟨[], by simp, by simp⟩

theorem method2_calls_spec (w : World) (r lf fn : String) (b : Bool) (s : SessionState) :
    ∃ Δ, (method2 w r lf fn b s).2.calls = s.calls ++ Δ ∧
      ∀ pc ∈ Δ, s.has_root = true ∧
        (pc = PortCall.shell (cpCmd r (tempPath (s.temp_counter + 1) fn)) true ∨
         pc = PortCall.shell (chmodCmd (tempPath (s.temp_counter + 1) fn)) true ∨
         pc = PortCall.pull (tempPath (s.temp_counter + 1) fn) lf ∨
         pc = PortCall.shell (rmCmd (tempPath (s.temp_counter + 1) fn)) true) := by
  rw [method2]
  split
  next hcond =>
    have hroot : s.has_root = true := ((Bool.and_eq_true _ _).mp hcond).2
    refine ⟨[PortCall.shell (cpCmd r (tempPath (s.temp_counter + 1) fn)) true,
      PortCall.shell (chmodCmd (tempPath (s.temp_counter + 1) fn)) true,
      PortCall.pull (tempPath (s.temp_counter + 1) fn) lf,
      PortCall.shell (rmCmd (tempPath (s.temp_counter + 1) fn)) true], ?_, ?_⟩
    · simp [shellRun, adbPull, hroot]
    · intro pc hpc
      refine ⟨hroot, ?_⟩
      rcases List.mem_cons.mp hpc with rfl | hpc
      · exact Or.inl rfl
      rcases List.mem_cons.mp hpc with rfl | hpc
      · exact Or.inr (Or.inl rfl)
      rcases List.mem_cons.mp hpc with rfl | hpc
      · exact Or.inr (Or.inr (Or.inl rfl))
      rcases List.mem_cons.mp hpc with rfl | hpc
      · exact Or.inr (Or.inr (Or.inr rfl))
      · simp at hpc
  next => exact ⟨[], by simp, by simp⟩

theorem method3_calls_spec (w : World) (r lf : String) (b : Bool) (s : SessionState) :
    ∃ Δ, (method3 w r lf b s).2.calls = s.calls ++ Δ ∧
      ∀ pc ∈ Δ,
        pc = PortCall.shell (statCmd r) s.has_root ∨
          (pc = PortCall.shell (catCmd r) s.has_root ∧
            ∃ sz : Int, pyInt (w.shellOut (statCmd r) s.has_root) = some sz ∧
              0 < sz ∧ sz < 5 * 1024 * 1024) := by
  rw [method3]
  split
  · simp only [shellRun, Bool.and_self]
    split
    · exact ⟨[PortCall.shell (statCmd r) s.has_root], by simp,
        fun pc hpc => Or.inl (by simpa using hpc)⟩
    next sz hsz =>
      split
      next hrange =>
        rw [Bool.and_eq_true, decide_eq_true_eq, decide_eq_true_eq] at hrange
        have hmem3 : ∀ pc ∈ [PortCall.shell (statCmd r) s.has_root,
            PortCall.shell (catCmd r) s.has_root],
            pc = PortCall.shell (statCmd r) s.has_root ∨
              (pc = PortCall.shell (catCmd r) s.has_root ∧
                ∃ z : Int, pyInt (w.shellOut (statCmd r) s.has_root) = some z ∧
                  0 < z ∧ z < 5 * 1024 * 1024) := by
          intro pc hpc
          rcases List.mem_cons.mp hpc with rfl | hpc
          · exact Or.inl rfl
          rcases List.mem_cons.mp hpc with rfl | hpc
          · exact Or.inr ⟨rfl, sz, hsz, hrange.1, hrange.2⟩
          · simp at hpc
        split
        · exact ⟨[PortCall.shell (statCmd r) s.has_root,
            PortCall.shell (catCmd r) s.has_root], by simp, hmem3⟩
        · exact ⟨[PortCall.shell (statCmd r) s.has_root,
            PortCall.shell (catCmd r) s.has_root], by simp, hmem3⟩
      next =>
        exact ⟨[PortCall.shell (statCmd r) s.has_root], by simp,
          fun pc hpc => Or.inl (by simpa using hpc)⟩
  · exact ⟨[], by simp, by simp⟩

/-- The device calls made by one run of the strategy chain: a direct pull
of the device path only outside the private namespaces, staged-copy
commands only with root, a stat probe, and a cat only when the
stat-reported size parses to a value strictly between 0 and 5 MiB. -/
theorem strategyChain_calls_spec (w : World) (r lf fn : String) (s : SessionState) :
    ∃ Δ, ((strategyChain w r lf fn s).2).calls = s.calls ++ Δ ∧
      ∀ pc ∈ Δ,
        (pc = PortCall.pull r lf ∧ pyStartswith r "/data/data/" = false ∧
          pyStartswith r "/data/user/" = false) ∨
        (s.has_root = true ∧
          (pc = PortCall.shell (cpCmd r (tempPath (s.temp_counter + 1) fn)) true ∨
           pc = PortCall.shell (chmodCmd (tempPath (s.temp_counter + 1) fn)) true ∨
           pc = PortCall.pull (tempPath (s.temp_counter + 1) fn) lf ∨
           pc = PortCall.shell (rmCmd (tempPath (s.temp_counter + 1) fn)) true)) ∨
        pc = PortCall.shell (statCmd r) s.has_root ∨
          (pc = PortCall.shell (catCmd r) s.has_root ∧
            ∃ sz : Int, pyInt (w.shellOut (statCmd r) s.has_root) = some sz ∧
              0 < sz ∧ sz < 5 * 1024 * 1024) := by
  have hdec : strategyChain w r lf fn s =
      method3 w r lf
        (method2 w r lf fn (method1 w r lf s).1 (method1 w r lf s).2).1
        (method2 w r lf fn (method1 w r lf s).1 (method1 w r lf s).2).2 := rfl
  obtain ⟨Δ1, hc1, hp1⟩ := method1_calls_spec w r lf s
  obtain ⟨Δ2, hc2, hp2⟩ :=
    method2_calls_spec w r lf fn (method1 w r lf s).1 (method1 w r lf s).2
  obtain ⟨Δ3, hc3, hp3⟩ := method3_calls_spec w r lf
    (method2 w r lf fn (method1 w r lf s).1 (method1 w r lf s).2).1
    (method2 w r lf fn (method1 w r lf s).1 (method1 w r lf s).2).2
  have h1root := (method1_preserves w r lf s).2.2.2
  have h1temp := method1_temp w r lf s
  have h2root :=
    (method2_preserves w r lf fn (method1 w r lf s).1 (method1 w r lf s).2).2.2.2
  refine ⟨Δ1 ++ (Δ2 ++ Δ3), ?_, ?_⟩
  · rw [hdec, hc3, hc2, hc1]
    simp [List.append_assoc]
  · intro pc hpc
    rcases List.mem_append.mp hpc with h | h
    · exact Or.inl (hp1 pc h)
    rcases List.mem_append.mp h with h | h
    · obtain ⟨hroot, hshape⟩ := hp2 pc h
      rw [h1root] at hroot
      rw [h1temp] at hshape
      exact Or.inr (Or.inl ⟨hroot, hshape⟩)
    · have h3 := hp3 pc h
      rw [h2root, h1root] at h3
      exact Or.inr (Or.inr h3)

/-! ## Success of any strategy requires a non-empty local file -/

theorem method1_true_fs (w : World) (r lf : String) (s : SessionState)
    (h : (method1 w r lf s).1 = true) :
    fsNonzero (method1 w r lf s).2.fs lf = true := by
  by_cases hc : (!pyStartswith r "/data/data/" && !pyStartswith r "/data/user/") = true
  · rw [method1, if_pos hc] at h ⊢
    dsimp only [adbPull] at h ⊢
    exact ((Bool.and_eq_true _ _).mp h).2
  · rw [method1, if_neg hc] at h
    simp at h

theorem method2_true_fs (w : World) (r lf fn : String) (b : Bool) (s : SessionState)
    (h : (method2 w r lf fn b s).1 = true) :
    (b = true ∧ (method2 w r lf fn b s).2 = s) ∨
      fsNonzero (method2 w r lf fn b s).2.fs lf = true := by
  by_cases hc : (!b && s.has_root) = true
  · rw [method2, if_pos hc] at h ⊢
    dsimp only [shellRun, adbPull] at h ⊢
    exact Or.inr ((Bool.and_eq_true _ _).mp h).2
  · rw [method2, if_neg hc] at h ⊢
    exact Or.inl ⟨h, rfl⟩

theorem method3_true_fs (w : World) (r lf : String) (b : Bool) (s : SessionState)
    (h : (method3 w r lf b s).1 = true) :
    (b = true ∧ (method3 w r lf b s).2 = s) ∨
      fsNonzero (method3 w r lf b s).2.fs lf = true := by
  by_cases hb : (!b) = true
  · rw [method3, if_pos hb] at h ⊢
    dsimp only [shellRun] at h ⊢
    rw [Bool.and_self] at h ⊢
    rcases hint : pyInt (w.shellOut (statCmd r) s.has_root) with _ | sz
    · rw [hint] at h
      simp at h
    · rw [hint] at h
      dsimp only at h ⊢
      by_cases hrange : (decide (0 < sz) && decide (sz < 5 * 1024 * 1024)) = true
      · rw [if_pos hrange] at h ⊢
        by_cases hcat : (decide (w.shellCode (catCmd r) s.has_root = 0) &&
            decide (w.shellOut (catCmd r) s.has_root ≠ "")) = true
        · rw [if_pos hcat] at h ⊢
          exact Or.inr h
        · rw [if_neg hcat] at h
          simp at h
      · rw [if_neg hrange] at h
        simp at h
  · rw [method3, if_neg hb] at h ⊢
    exact Or.inl ⟨h, rfl⟩

theorem strategyChain_true_fs (w : World) (r lf fn : String) (s : SessionState)
    (h : (strategyChain w r lf fn s).1 = true) :
    fsNonzero ((strategyChain w r lf fn s).2).fs lf = true := by
  have hdec : strategyChain w r lf fn s =
      method3 w r lf
        (method2 w r lf fn (method1 w r lf s).1 (method1 w r lf s).2).1
        (method2 w r lf fn (method1 w r lf s).1 (method1 w r lf s).2).2 := rfl
  rw [hdec] at h ⊢
  rcases method3_true_fs w r lf _ _ h with ⟨hb2, hs2⟩ | hfs
  · rw [hs2]
    rcases method2_true_fs w r lf fn _ _ hb2 with ⟨hb1, hs1⟩ | hfs2
    · rw [hs1]
      exact method1_true_fs w r lf s hb1
    · exact hfs2
  · exact hfs

/-- **C6** The three strategies run in the fixed order direct transfer,
elevated staged copy, inline read, stopping at the first success:
(1) a direct pull of the device path is never issued when the path lies
in one of the two private-app-storage namespaces `/data/data/` and
`/data/user/`; (2) without root, the only new port calls possible are
the direct pull, the unelevated stat probe and the unelevated cat read —
no staged-copy command is ever issued; (3) a cat (inline read) is issued
only when the stat-reported size parses to a value strictly between 0
and 5 MiB; (4) when the direct transfer applies and succeeds, the chain
stops at once with that single pull as its only port call; (5) the
chain reports success only if the local file exists with non-zero size
afterwards. -/
theorem strategy_chain_policy (w : World) (r lf fn : String) (s : SessionState) :
    ((pyStartswith r "/data/data/" = true ∨ pyStartswith r "/data/user/" = true) →
      PortCall.pull r lf ∉ s.calls →
      PortCall.pull r lf ∉ ((strategyChain w r lf fn s).2).calls) ∧
    (s.has_root = false → ∀ pc ∈ ((strategyChain w r lf fn s).2).calls,
      pc ∈ s.calls ∨ pc = PortCall.pull r lf ∨
        pc = PortCall.shell (statCmd r) false ∨ pc = PortCall.shell (catCmd r) false) ∧
    (∀ e : Bool, PortCall.shell (catCmd r) e ∈ ((strategyChain w r lf fn s).2).calls →
      PortCall.shell (catCmd r) e ∈ s.calls ∨
        ∃ sz : Int, pyInt (w.shellOut (statCmd r) s.has_root) = some sz ∧
          0 < sz ∧ sz < 5 * 1024 * 1024) ∧
    (∀ n : Nat, pyStartswith r "/data/data/" = false → pyStartswith r "/data/user/" = false →
      w.pullCode r lf = 0 → w.pullSize r lf = some n → 0 < n →
      strategyChain w r lf fn s =
        (true, { s with calls := s.calls ++ [PortCall.pull r lf],
                        fs := fsSet s.fs lf (some n) })) ∧
    ((strategyChain w r lf fn s).1 = true →
      fsNonzero ((strategyChain w r lf fn s).2).fs lf = true) := by
  obtain ⟨Δ, hΔ, hP⟩ := strategyChain_calls_spec w r lf fn s
  refine ⟨?_, ?_, ?_, ?_, ?_⟩
  · rintro hres hnot hmem
    rw [hΔ] at hmem
    rcases List.mem_append.mp hmem with h | h
    · exact hnot h
    rcases hP _ h with ⟨heq, hr1, hr2⟩ | ⟨hroot, hshape⟩ | heq | ⟨heq, -⟩
    · rcases hres with hx | hx
      · rw [hr1] at hx
        exact Bool.false_ne_true hx
      · rw [hr2] at hx
        exact Bool.false_ne_true hx
    · rcases hshape with heq | heq | heq | heq
      · simp at heq
      · simp at heq
      · have hr : r = tempPath (s.temp_counter + 1) fn := by
          have := heq
          simp only [PortCall.pull.injEq] at this
          exact this.1
        exact restricted_ne_temp r (tempName (s.temp_counter + 1) fn) hres hr
      · simp at heq
    · simp at heq
    · simp at heq
  · rintro hroot pc hmem
    rw [hΔ] at hmem
    rcases List.mem_append.mp hmem with h | h
    · exact Or.inl h
    rcases hP _ h with ⟨heq, -, -⟩ | ⟨hr, -⟩ | heq | ⟨heq, -⟩
    · exact Or.inr (Or.inl heq)
    · rw [hroot] at hr
      exact absurd hr (by simp)
    · rw [hroot] at heq
      exact Or.inr (Or.inr (Or.inl heq))
    · rw [hroot] at heq
      exact Or.inr (Or.inr (Or.inr heq))
  · rintro e hmem
    rw [hΔ] at hmem
    rcases List.mem_append.mp hmem with h | h
    · exact Or.inl h
    rcases hP _ h with ⟨heq, -, -⟩ | ⟨-, hshape⟩ | heq | ⟨-, hsz⟩
    · simp at heq
    · rcases hshape with heq | heq | heq | heq
      · have hc : catCmd r = cpCmd r (tempPath (s.temp_counter + 1) fn) := by
          simp only [PortCall.shell.injEq] at heq
          exact heq.1
        exact absurd hc (catCmd_ne_cpCmd _ _ _)
      · have hc : catCmd r = chmodCmd (tempPath (s.temp_counter + 1) fn) := by
          simp only [PortCall.shell.injEq] at heq
          exact heq.1
        exact absurd hc (catCmd_ne_chmodCmd _ _)
      · simp at heq
      · have hc : catCmd r = rmCmd (tempPath (s.temp_counter + 1) fn) := by
          simp only [PortCall.shell.injEq] at heq
          exact heq.1
        exact absurd hc (catCmd_ne_rmCmd _ _)
    · have hc : catCmd r = statCmd r := by
        simp only [PortCall.shell.injEq] at heq
        exact heq.1
      exact absurd hc (catCmd_ne_statCmd _ _)
    · exact Or.inr hsz
  · intro n hr1 hr2 hcode hsize hn
    exact strategyChain_direct w r lf fn s n hr1 hr2 hcode hsize hn
  · exact strategyChain_true_fs w r lf fn s

/-- C6's conjuncts at concrete inputs: the restricted path
`/data/data/com.x/f` is never pulled directly; an unrestricted path on a
responsive device is fetched by the direct strategy alone, with the pull
as the only port call; and that successful run leaves a non-empty local
file. -/
theorem strategy_chain_policy_witness :
    decide (PortCall.pull "/data/data/com.x/f" "out/f" ∈
      ((strategyChain wOk "/data/data/com.x/f" "out/f" "f" sEmpty).2).calls) = false ∧
    strategyChain wOk "/x/f" "out/f" "f" sEmpty =
      (true, { sEmpty with calls := sEmpty.calls ++ [PortCall.pull "/x/f" "out/f"],
                           fs := fsSet sEmpty.fs "out/f" (some 2048) }) ∧
    fsNonzero ((strategyChain wOk "/x/f" "out/f" "f" sEmpty).2).fs "out/f" = true := by
  obtain ⟨h1, h2, h3, h4, h5⟩ :=
    strategy_chain_policy wOk "/data/data/com.x/f" "out/f" "f" sEmpty
  obtain ⟨g1, g2, g3, g4, g5⟩ := strategy_chain_policy wOk "/x/f" "out/f" "f" sEmpty
  have hEq := g4 2048 (by decide) (by decide) rfl rfl (by decide)
  exact ⟨decide_eq_false (h1 (Or.inl (by decide)) (by decide)), hEq,
    g5 (by rw [hEq])⟩

end AMAT
